import Mathlib

/-! Shallow embedding of the COSMEON FS-Lite server core (src/server.js):
chunked placement of a byte sequence across four storage nodes, the node
status registry, the metadata catalog, and reconstruction with per-chunk
and whole-file digest verification.

Bytes are modelled as `Nat`, byte sequences as `List Nat`.  The SHA-256
digest function `generateHash` is modelled as an abstract parameter
`H : List Nat → Nat`; every operation is parametric in `H` (witnesses
instantiate it with the injective `Encodable.encode`).  File-system state
(the per-node `status.json` records, the chunk payload files inside each
node directory, and `metadata.json`) is an explicit `Sys` record, and each
route handler is a state-passing function.  `fs` failures on reads are
modelled by `Option`/`none`; thrown JS errors become `Except` errors. -/

namespace Cosmeon

/-- Node liveness status: the `'online'` / `'offline'` strings stored in a
node's `status.json`. -/
inductive Status where
  | online
  | offline
deriving DecidableEq, Repr

/-- A node's persisted `status.json` record (server.js lines 39-44 and 96).
`lastSeen` is an abstract timestamp; `none` models the `lastSeen: null` of
the synthesized record. -/
structure NodeState where
  nodeId : String
  status : Status
  chunkCount : Nat
  lastSeen : Option Nat
deriving DecidableEq, Repr

/-- One entry of a manifest's `chunks` object (server.js lines 224-230).
The stored `path` string is omitted: it is determined by `(node, fileId,
chunkId)` and never read back. -/
structure ChunkMeta where
  chunkId : Nat
  node : String
  hash : Nat
  size : Nat
deriving DecidableEq, Repr

/-- A file's manifest `metadata.files[fileId]` (server.js lines 176-184).
`chunks` is the integer-keyed JS object, modelled as a partial map. -/
structure FileMeta where
  fileId : String
  originalName : String
  size : Nat
  totalChunks : Nat
  uploadedAt : Nat
  fileHash : Nat
  chunks : Nat → Option ChunkMeta

/-- The parsed content of `metadata.json` (the catalog). -/
structure Metadata where
  files : String → Option FileMeta

/-- The whole persistent state the core reads and writes: one optional
`status.json` record per node id (`none` = file absent/unreadable), the
chunk payloads keyed by `(nodeId, fileId, chunkIndex)` (the file
`nodes/<node>/<fileId>_chunk<i>`), the optional parsed `metadata.json`
(`none` = absent, unreadable or unparseable), and an abstract clock used
for `lastSeen` timestamps. -/
structure Sys where
  nodes : String → Option NodeState
  store : String → String → Nat → Option (List Nat)
  metadataFile : Option Metadata
  clock : Nat

/-- The fixed node population (server.js line 19). -/
def NODES : List String := ["node1", "node2", "node3", "node4"]

/-- The fixed chunk size, 1 MiB (server.js line 18). -/
def CHUNK_SIZE : Nat := 1024 * 1024

/-- `readMetadata` (server.js lines 75-82): any read/parse failure is
caught and collapsed to the empty catalog `{ files: {} }`. -/
def readMetadata (st : Sys) : Metadata :=
  match st.metadataFile with
  | some m => m
  | none => ⟨fun _ => none⟩

/-- `writeMetadata` (server.js lines 85-87). -/
def writeMetadata (st : Sys) (m : Metadata) : Sys :=
  { st with metadataFile := some m }

/-- `getNodeStatus` (server.js lines 90-98): a missing or unreadable
`status.json` is caught and replaced by the synthesized record
`{ nodeId, status: 'offline', chunkCount: 0, lastSeen: null }`. -/
def getNodeStatus (st : Sys) (nodeId : String) : NodeState :=
  match st.nodes nodeId with
  | some ns => ns
  | none => ⟨nodeId, Status.offline, 0, none⟩

/-- Overwrite a node's `status.json` with a record. -/
def writeNodeStatus (st : Sys) (nodeId : String) (ns : NodeState) : Sys :=
  { st with nodes := fun m => if m = nodeId then some ns else st.nodes m }

/-- `updateNodeStatus` (server.js lines 101-111): re-reads the persisted
record, sets `status` and `lastSeen`, writes it back and returns it.  Note
it writes the `chunkCount` it just re-read from disk. -/
def updateNodeStatus (st : Sys) (nodeId : String) (status : Status) :
    Sys × NodeState :=
  let ns := getNodeStatus st nodeId
  let ns := { ns with status := status, lastSeen := some st.clock }
  (writeNodeStatus st nodeId ns, ns)

/-- Write a chunk payload file `nodes/<node>/<fileId>_chunk<i>`
(server.js line 216). -/
def writeChunk (st : Sys) (node fileId : String) (i : Nat) (bytes : List Nat) :
    Sys :=
  { st with
    store := fun n f j =>
      if n = node ∧ f = fileId ∧ j = i then some bytes else st.store n f j }

/-- The `Math.ceil(length / C)` chunk count (server.js line 170). -/
def ceilDiv (L C : Nat) : Nat := (L + C - 1) / C

/-- `fileBuffer.slice(i*C, min(i*C + C, length))` (server.js lines
190-192). -/
def sliceAt (C : Nat) (b : List Nat) (i : Nat) : List Nat :=
  (b.drop (i * C)).take C

/-- The indexed chunk buffers the upload loop iterates over. -/
def chunkSlices (C : Nat) (b : List Nat) : List (Nat × List Nat) :=
  (List.range (ceilDiv b.length C)).map (fun i => (i, sliceAt C b i))

/-- The inner scan of the upload loop (server.js lines 196-207): starting
from the cursor `nodeIndex`, try at most `NODES.length` candidates in
population order, skipping nodes whose current status is not `online`;
return the first online node together with the advanced cursor. -/
def findNode (st : Sys) : Nat → Nat → Option (String × Nat)
  | _, 0 => none
  | nodeIndex, attempt + 1 =>
    let nodeId := NODES.getD (nodeIndex % NODES.length) ""
    if (getNodeStatus st nodeId).status = Status.online then
      some (nodeId, nodeIndex + 1)
    else
      findNode st (nodeIndex + 1) attempt

/-- The state mutation of one upload-loop iteration after a node has been
assigned (server.js lines 213-221): write the chunk payload, re-read the
node record and increment its `chunkCount` in memory, then call
`updateNodeStatus` with the (unchanged) status.  The in-memory increment
is discarded, because `updateNodeStatus` re-reads the persisted record
before writing it back. -/
def placeStep (fileId : String) (st : Sys) (assignedNode : String) (i : Nat)
    (chunkBuffer : List Nat) : Sys :=
  let st1 := writeChunk st assignedNode fileId i chunkBuffer
  let nodeStatus := getNodeStatus st1 assignedNode
  let nodeStatus := { nodeStatus with chunkCount := nodeStatus.chunkCount + 1 }
  (updateNodeStatus st1 assignedNode nodeStatus.status).1

/-- The body of the upload loop (server.js lines 189-233), one iteration
per `(chunkIndex, chunkBuffer)` pair: find an online node, perform
`placeStep`, and record the chunk's metadata.  Failure to find a node
throws `'No online nodes available'`, aborting with the state as mutated
so far. -/
def placeLoop (H : List Nat → Nat) (fileId : String) :
    Sys → Nat → (Nat → Option ChunkMeta) → List (Nat × List Nat) →
    Sys × Except String (Nat → Option ChunkMeta)
  | st, _, acc, [] => (st, Except.ok acc)
  | st, nodeIndex, acc, (i, chunkBuffer) :: rest =>
    match findNode st nodeIndex NODES.length with
    | none => (st, Except.error "No online nodes available")
    | some (assignedNode, nodeIndex') =>
      let cm : ChunkMeta := ⟨i, assignedNode, H chunkBuffer, chunkBuffer.length⟩
      placeLoop H fileId (placeStep fileId st assignedNode i chunkBuffer) nodeIndex'
        (fun j => if j = i then some cm else acc j) rest

/-- The success payload of the upload route's JSON response. -/
structure UploadOk where
  fileId : String
  originalName : String
  totalChunks : Nat
deriving DecidableEq, Repr

/-- The `/api/upload` handler core (server.js lines 160-258), parametric
in the chunk size `C` (the code fixes `C = CHUNK_SIZE`) and the digest
function `H` (the code's `generateHash`).  The manifest is assembled in
memory (starting from `chunks: {}`) and written to the catalog only after
every chunk has been placed; the round's cursor `nodeIndex` starts at 0 on
every call. -/
def upload (C : Nat) (H : List Nat → Nat) (st : Sys)
    (fileId originalname : String) (fileBuffer : List Nat) :
    Sys × Except String UploadOk :=
  let size := fileBuffer.length
  let totalChunks := ceilDiv size C
  let metadata := readMetadata st
  match placeLoop H fileId st 0 (fun _ => none) (chunkSlices C fileBuffer) with
  | (st', Except.error e) => (st', Except.error e)
  | (st', Except.ok chunksMap) =>
    let fm : FileMeta :=
      { fileId := fileId, originalName := originalname, size := size,
        totalChunks := totalChunks, uploadedAt := st.clock,
        fileHash := H fileBuffer, chunks := chunksMap }
    let metadata' : Metadata :=
      ⟨fun g => if g = fileId then some fm else metadata.files g⟩
    (writeMetadata st' metadata', Except.ok ⟨fileId, originalname, totalChunks⟩)

/-- Why a chunk ended up in `missingChunks` (server.js lines 290-302):
`nodeOffline` is the `'Node offline'` entry, `hashMismatch` the caught
`'Chunk i hash mismatch'` error, `readFailure` a caught `fs.readFile`
error. -/
inductive MissReason where
  | nodeOffline
  | hashMismatch
  | readFailure
deriving DecidableEq, Repr

/-- One entry of the `missingChunks` array (server.js lines 297 and
301). -/
structure Missing where
  chunkId : Nat
  node : String
  reason : MissReason
deriving DecidableEq, Repr

/-- The retrieved bytes for chunk `i` during reconstruction, or `none`
when the chunk is not retrieved (owner offline, read failure, or digest
mismatch) — one arm of the per-chunk dispatch of server.js lines
281-303. -/
def chunkFetch (H : List Nat → Nat) (st : Sys) (fileId : String)
    (fi : FileMeta) (i : Nat) : Option (List Nat) :=
  match fi.chunks i with
  | none => none
  | some ci =>
    if (getNodeStatus st ci.node).status = Status.online then
      match st.store ci.node fileId i with
      | none => none
      | some buf => if H buf = ci.hash then some buf else none
    else none

/-- The `missingChunks` entry produced for chunk `i` during
reconstruction, or `none` when the chunk is retrieved — the other arm of
the per-chunk dispatch of server.js lines 281-303.  Exactly one of
`chunkFetch` and `chunkMiss` fires for each well-formed chunk entry. -/
def chunkMiss (H : List Nat → Nat) (st : Sys) (fileId : String)
    (fi : FileMeta) (i : Nat) : Option Missing :=
  match fi.chunks i with
  | none => none
  | some ci =>
    if (getNodeStatus st ci.node).status = Status.online then
      match st.store ci.node fileId i with
      | none => some ⟨i, ci.node, MissReason.readFailure⟩
      | some buf =>
        if H buf = ci.hash then none
        else some ⟨i, ci.node, MissReason.hashMismatch⟩
    else some ⟨i, ci.node, MissReason.nodeOffline⟩

/-- Errors thrown by the reconstruct handler: `fileNotFound` is the
`'File not found'` throw (line 267), `fileIntegrityFailure` the
`'File hash mismatch - data corrupted'` throw (line 318), and
`manifestCorrupt` the implicit TypeError when `fileInfo.chunks[i]` is
absent (line 280). -/
inductive RecoError where
  | fileNotFound
  | fileIntegrityFailure
  | manifestCorrupt
deriving DecidableEq, Repr

/-- The chunk-collection loop (server.js lines 279-304) over a list of
chunk indices: produces the sparse `chunks` array (as a list of
`Option`s, `none` for a hole) and the `missingChunks` list, in index
order. -/
def collectChunks (H : List Nat → Nat) (st : Sys) (fileId : String)
    (fi : FileMeta) : List Nat →
    Except RecoError (List (Option (List Nat)) × List Missing)
  | [] => Except.ok ([], [])
  | i :: rest =>
    if (fi.chunks i).isSome then
      match collectChunks H st fileId fi rest with
      | Except.error e => Except.error e
      | Except.ok (cs, ms) =>
        Except.ok (chunkFetch H st fileId fi i :: cs,
                   (chunkMiss H st fileId fi i).toList ++ ms)
    else Except.error RecoError.manifestCorrupt

/-- The reconstruct route's JSON response (server.js lines 327-347):
`bytes` is the reconstructed buffer on success, `none` otherwise (the
success response omits `availableChunks`/`missingChunks`, but they equal
`totalChunks` and `[]` there, so one record type covers both). -/
structure RecoResult where
  status : String
  availableChunks : Nat
  totalChunks : Nat
  missingChunks : List Missing
  bytes : Option (List Nat)
deriving DecidableEq, Repr

/-- The `/api/reconstruct/:fileId` handler core (server.js lines
261-357): look the file up in the catalog, collect and verify the chunks,
classify the outcome as `'success'` / `'partial'` / `'failed'`, and on
success reassemble and check the whole-file digest. -/
def reconstruct (H : List Nat → Nat) (st : Sys) (fileId : String) :
    Except RecoError RecoResult :=
  let metadata := readMetadata st
  match metadata.files fileId with
  | none => Except.error RecoError.fileNotFound
  | some fi =>
    match collectChunks H st fileId fi (List.range fi.totalChunks) with
    | Except.error e => Except.error e
    | Except.ok (chunks, missingChunks) =>
      let availableChunks := (chunks.filter Option.isSome).length
      let status := if availableChunks = fi.totalChunks then "success"
        else if 0 < availableChunks then "partial" else "failed"
      if availableChunks = fi.totalChunks then
        let reconstructed := (chunks.map (fun c => c.getD [])).flatten
        if H reconstructed = fi.fileHash then
          Except.ok ⟨"success", availableChunks, fi.totalChunks,
                     missingChunks, some reconstructed⟩
        else Except.error RecoError.fileIntegrityFailure
      else
        Except.ok ⟨status, availableChunks, fi.totalChunks,
                   missingChunks, none⟩

/-- The `/api/nodes/:nodeId/toggle` handler core (server.js lines
384-411): reject unknown node ids, otherwise set the requested status
(or flip the current one when the request body carries none). -/
def toggleNode (st : Sys) (nodeId : String) (status? : Option Status) :
    Sys × Except String NodeState :=
  if NODES.contains nodeId then
    let current := getNodeStatus st nodeId
    let newStatus := status?.getD
      (if current.status = Status.online then Status.offline else Status.online)
    let p := updateNodeStatus st nodeId newStatus
    (p.1, Except.ok p.2)
  else (st, Except.error "Invalid node ID")

/-- The state `initializeSystem` (server.js lines 25-57) builds on first
start: every node online with `chunkCount` 0, empty chunk directories,
and an empty catalog. -/
def initState : Sys :=
  { nodes := fun m => if m ∈ NODES then some ⟨m, Status.online, 0, some 0⟩ else none
    store := fun _ _ _ => none
    metadataFile := some ⟨fun _ => none⟩
    clock := 0 }

/-- All nodes of the population are online. -/
def allOnline (st : Sys) : Prop :=
  ∀ n ∈ NODES, (getNodeStatus st n).status = Status.online

/-- At least one node of the population is online. -/
def someOnline (st : Sys) : Prop :=
  ∃ n ∈ NODES, (getNodeStatus st n).status = Status.online

/-! ### Basic state lemmas -/

theorem getNodeStatus_writeChunk (st : Sys) (nd f : String) (i : Nat)
    (b : List Nat) (m : String) :
    getNodeStatus (writeChunk st nd f i b) m = getNodeStatus st m := rfl

theorem placeStep_getNodeStatus (fid : String) (st : Sys) (nd : String)
    (i : Nat) (buf : List Nat) (m : String) :
    getNodeStatus (placeStep fid st nd i buf) m =
      if m = nd then { getNodeStatus st nd with lastSeen := some st.clock }
      else getNodeStatus st m := by
  by_cases h : m = nd <;>
    simp [placeStep, updateNodeStatus, writeNodeStatus, writeChunk,
      getNodeStatus, h]

theorem placeStep_status (fid : String) (st : Sys) (nd : String) (i : Nat)
    (buf : List Nat) (m : String) :
    (getNodeStatus (placeStep fid st nd i buf) m).status =
      (getNodeStatus st m).status := by
  rw [placeStep_getNodeStatus]
  by_cases h : m = nd <;> simp [h]

theorem placeStep_chunkCount (fid : String) (st : Sys) (nd : String) (i : Nat)
    (buf : List Nat) (m : String) :
    (getNodeStatus (placeStep fid st nd i buf) m).chunkCount =
      (getNodeStatus st m).chunkCount := by
  rw [placeStep_getNodeStatus]
  by_cases h : m = nd <;> simp [h]

theorem placeStep_store (fid : String) (st : Sys) (nd : String) (i : Nat)
    (buf : List Nat) :
    (placeStep fid st nd i buf).store =
      (writeChunk st nd fid i buf).store := rfl

theorem placeStep_metadataFile (fid : String) (st : Sys) (nd : String)
    (i : Nat) (buf : List Nat) :
    (placeStep fid st nd i buf).metadataFile = st.metadataFile := rfl

theorem placeStep_clock (fid : String) (st : Sys) (nd : String) (i : Nat)
    (buf : List Nat) :
    (placeStep fid st nd i buf).clock = st.clock := rfl

theorem placeStep_store_same (fid : String) (st : Sys) (nd : String) (i : Nat)
    (buf : List Nat) :
    (placeStep fid st nd i buf).store nd fid i = some buf := by
  rw [placeStep_store]
  simp [writeChunk]

theorem placeStep_store_other (fid : String) (st : Sys) (nd : String) (i : Nat)
    (buf : List Nat) (n f : String) (j : Nat) (h : ¬(n = nd ∧ f = fid ∧ j = i)) :
    (placeStep fid st nd i buf).store n f j = st.store n f j := by
  rw [placeStep_store]
  simp [writeChunk, h]

theorem someOnline_of_status_eq (st st' : Sys)
    (h : ∀ m, (getNodeStatus st' m).status = (getNodeStatus st m).status)
    (hs : someOnline st) : someOnline st' := by
  obtain ⟨n, hn, hon⟩ := hs
  exact ⟨n, hn, (h n).trans hon⟩

/-! ### findNode lemmas -/

theorem NODES_getD_mem (n : Nat) : NODES.getD (n % NODES.length) "" ∈ NODES := by
  have h : n % NODES.length < 4 := Nat.mod_lt _ (by decide)
  set k := n % NODES.length with hk
  interval_cases k <;> decide

theorem findNode_some (st : Sys) :
    ∀ (fuel idx : Nat) (nd : String) (idx' : Nat),
    findNode st idx fuel = some (nd, idx') →
    nd ∈ NODES ∧ (getNodeStatus st nd).status = Status.online := by
  intro fuel
  induction fuel with
  | zero => intro idx nd idx' h; simp [findNode] at h
  | succ k ih =>
    intro idx nd idx' h
    unfold findNode at h
    by_cases hon :
        (getNodeStatus st (NODES.getD (idx % NODES.length) "")).status =
          Status.online
    · simp only [hon, if_pos, Option.some.injEq, Prod.mk.injEq] at h
      obtain ⟨h1, _⟩ := h
      subst h1
      exact ⟨NODES_getD_mem idx, hon⟩
    · rw [if_neg hon] at h
      exact ih _ _ _ h

theorem findNode_none_offline (st : Sys) :
    ∀ (fuel idx : Nat), findNode st idx fuel = none →
    ∀ j < fuel,
      (getNodeStatus st (NODES.getD ((idx + j) % NODES.length) "")).status ≠
        Status.online := by
  intro fuel
  induction fuel with
  | zero => intro idx _ j hj; omega
  | succ k ih =>
    intro idx h j hj
    unfold findNode at h
    by_cases hon :
        (getNodeStatus st (NODES.getD (idx % NODES.length) "")).status =
          Status.online
    · rw [if_pos hon] at h
      exact absurd h (by simp)
    · rw [if_neg hon] at h
      cases j with
      | zero => simpa using hon
      | succ j' =>
        have := ih (idx + 1) h j' (by omega)
        have harith : idx + 1 + j' = idx + (j' + 1) := by omega
        rwa [harith] at this

theorem all_offline_of_findNode_none (st : Sys) (idx : Nat)
    (h : findNode st idx NODES.length = none) :
    ∀ n ∈ NODES, (getNodeStatus st n).status ≠ Status.online := by
  intro n hn
  have hmem : ∃ m, m < NODES.length ∧ NODES.getD m "" = n := by
    simp only [NODES, List.mem_cons, List.not_mem_nil, or_false] at hn
    rcases hn with rfl | rfl | rfl | rfl
    · exact ⟨0, by decide, rfl⟩
    · exact ⟨1, by decide, rfl⟩
    · exact ⟨2, by decide, rfl⟩
    · exact ⟨3, by decide, rfl⟩
  obtain ⟨m, hm, rfl⟩ := hmem
  have hlen : NODES.length = 4 := by decide
  obtain ⟨j, hj4, hjm⟩ : ∃ j, j < NODES.length ∧ (idx + j) % NODES.length = m := by
    rw [hlen] at hm ⊢
    exact ⟨(m + 4 - idx % 4) % 4, by omega, by omega⟩
  have := findNode_none_offline st NODES.length idx h j hj4
  rwa [hjm] at this

theorem findNode_isSome_of_someOnline (st : Sys) (hs : someOnline st)
    (idx : Nat) : (findNode st idx NODES.length).isSome := by
  cases hf : findNode st idx NODES.length with
  | some p => rfl
  | none =>
    obtain ⟨n, hn, hon⟩ := hs
    exact absurd hon (all_offline_of_findNode_none st idx hf n hn)

theorem findNode_allOnline (st : Sys) (h : allOnline st) (idx : Nat) :
    findNode st idx NODES.length =
      some (NODES.getD (idx % NODES.length) "", idx + 1) := by
  have hon := h _ (NODES_getD_mem idx)
  show findNode st idx (3 + 1) = _
  unfold findNode
  rw [if_pos hon]

/-! ### placeLoop lemmas -/

theorem placeLoop_cons (H : List Nat → Nat) (fid : String) (st : Sys)
    (idx : Nat) (acc : Nat → Option ChunkMeta) (i : Nat) (buf : List Nat)
    (rest : List (Nat × List Nat)) (nd : String) (idx' : Nat)
    (hf : findNode st idx NODES.length = some (nd, idx')) :
    placeLoop H fid st idx acc ((i, buf) :: rest) =
      placeLoop H fid (placeStep fid st nd i buf) idx'
        (fun j => if j = i then some ⟨i, nd, H buf, buf.length⟩ else acc j)
        rest := by
  rw [placeLoop, hf]

theorem placeLoop_cons_none (H : List Nat → Nat) (fid : String) (st : Sys)
    (idx : Nat) (acc : Nat → Option ChunkMeta) (i : Nat) (buf : List Nat)
    (rest : List (Nat × List Nat))
    (hf : findNode st idx NODES.length = none) :
    placeLoop H fid st idx acc ((i, buf) :: rest) =
      (st, Except.error "No online nodes available") := by
  rw [placeLoop, hf]

theorem placeLoop_preserves (H : List Nat → Nat) (fid : String) :
    ∀ (L : List (Nat × List Nat)) (st : Sys) (idx : Nat)
      (acc : Nat → Option ChunkMeta),
    (∀ m, (getNodeStatus (placeLoop H fid st idx acc L).1 m).status =
            (getNodeStatus st m).status ∧
          (getNodeStatus (placeLoop H fid st idx acc L).1 m).chunkCount =
            (getNodeStatus st m).chunkCount) ∧
    (placeLoop H fid st idx acc L).1.metadataFile = st.metadataFile ∧
    (placeLoop H fid st idx acc L).1.clock = st.clock := by
  intro L
  induction L with
  | nil => intro st idx acc; exact ⟨fun m => ⟨rfl, rfl⟩, rfl, rfl⟩
  | cons p rest ih =>
    intro st idx acc
    obtain ⟨i, buf⟩ := p
    cases hf : findNode st idx NODES.length with
    | none =>
      rw [placeLoop_cons_none H fid st idx acc i buf rest hf]
      exact ⟨fun m => ⟨rfl, rfl⟩, rfl, rfl⟩
    | some p' =>
      obtain ⟨nd, idx'⟩ := p'
      rw [placeLoop_cons H fid st idx acc i buf rest nd idx' hf]
      obtain ⟨hreg, hmeta, hclock⟩ := ih (placeStep fid st nd i buf) idx'
        (fun j => if j = i then some ⟨i, nd, H buf, buf.length⟩ else acc j)
      refine ⟨fun m => ?_, ?_, ?_⟩
      · obtain ⟨h1, h2⟩ := hreg m
        rw [h1, h2, placeStep_status, placeStep_chunkCount]
        exact ⟨rfl, rfl⟩
      · rw [hmeta, placeStep_metadataFile]
      · rw [hclock, placeStep_clock]

theorem placeLoop_assigned (H : List Nat → Nat) (fid : String) :
    ∀ (L : List (Nat × List Nat)) (st : Sys) (idx : Nat)
      (acc : Nat → Option ChunkMeta) (st' : Sys)
      (cmap : Nat → Option ChunkMeta),
    placeLoop H fid st idx acc L = (st', Except.ok cmap) →
    ∀ j cm, cmap j = some cm →
      acc j = some cm ∨
        ((getNodeStatus st cm.node).status = Status.online ∧ cm.node ∈ NODES) := by
  intro L
  induction L with
  | nil =>
    intro st idx acc st' cmap h j cm hj
    have : acc = cmap := congrArg (fun p => p.2) h |> fun h2 => by
      cases h2' : (Except.ok acc : Except String (Nat → Option ChunkMeta)) <;>
        simp_all [placeLoop]
    rw [this]; exact Or.inl hj
  | cons p rest ih =>
    intro st idx acc st' cmap h j cm hj
    obtain ⟨i, buf⟩ := p
    cases hf : findNode st idx NODES.length with
    | none =>
      rw [placeLoop_cons_none H fid st idx acc i buf rest hf] at h
      exact absurd (congrArg Prod.snd h) (by simp)
    | some p' =>
      obtain ⟨nd, idx'⟩ := p'
      rw [placeLoop_cons H fid st idx acc i buf rest nd idx' hf] at h
      obtain ⟨hnd, hon⟩ := findNode_some st NODES.length idx nd idx' hf
      have := ih (placeStep fid st nd i buf) idx'
        (fun k => if k = i then some ⟨i, nd, H buf, buf.length⟩ else acc k)
        st' cmap h j cm hj
      rcases this with hacc | ⟨hon2, hmem2⟩
      · have hacc2 : (if j = i then some (⟨i, nd, H buf, buf.length⟩ : ChunkMeta)
            else acc j) = some cm := hacc
        by_cases hji : j = i
        · rw [if_pos hji] at hacc2
          have hcm := Option.some.inj hacc2
          right
          rw [← hcm]
          exact ⟨hon, hnd⟩
        · rw [if_neg hji] at hacc2
          exact Or.inl hacc2
      · right
        rw [placeStep_status] at hon2
        exact ⟨hon2, hmem2⟩

theorem placeLoop_ok_of_someOnline (H : List Nat → Nat) (fid : String) :
    ∀ (L : List (Nat × List Nat)) (st : Sys) (idx : Nat)
      (acc : Nat → Option ChunkMeta), someOnline st →
    ∃ st' cmap, placeLoop H fid st idx acc L = (st', Except.ok cmap) := by
  intro L
  induction L with
  | nil => intro st idx acc _; exact ⟨st, acc, rfl⟩
  | cons p rest ih =>
    intro st idx acc hs
    obtain ⟨i, buf⟩ := p
    have hf := findNode_isSome_of_someOnline st hs idx
    cases hfe : findNode st idx NODES.length with
    | none => rw [hfe] at hf; exact absurd hf (by simp)
    | some p' =>
      obtain ⟨nd, idx'⟩ := p'
      rw [placeLoop_cons H fid st idx acc i buf rest nd idx' hfe]
      exact ih (placeStep fid st nd i buf) idx' _
        (someOnline_of_status_eq st _ (placeStep_status fid st nd i buf) hs)

theorem placeLoop_error_state (H : List Nat → Nat) (fid : String) :
    ∀ (L : List (Nat × List Nat)) (st : Sys) (idx : Nat)
      (acc : Nat → Option ChunkMeta) (st' : Sys) (e : String),
    placeLoop H fid st idx acc L = (st', Except.error e) → st' = st := by
  intro L
  induction L with
  | nil =>
    intro st idx acc st' e h
    exact absurd (congrArg Prod.snd h) (by simp [placeLoop])
  | cons p rest ih =>
    intro st idx acc st' e h
    obtain ⟨i, buf⟩ := p
    cases hf : findNode st idx NODES.length with
    | none =>
      rw [placeLoop_cons_none H fid st idx acc i buf rest hf] at h
      exact (congrArg Prod.fst h).symm
    | some p' =>
      obtain ⟨nd, idx'⟩ := p'
      rw [placeLoop_cons H fid st idx acc i buf rest nd idx' hf] at h
      obtain ⟨hnd, hon⟩ := findNode_some st NODES.length idx nd idx' hf
      have hs2 : someOnline (placeStep fid st nd i buf) :=
        someOnline_of_status_eq st _ (placeStep_status fid st nd i buf)
          ⟨nd, hnd, hon⟩
      obtain ⟨st'', cmap, hok⟩ := placeLoop_ok_of_someOnline H fid rest
        (placeStep fid st nd i buf) idx'
        (fun k => if k = i then some ⟨i, nd, H buf, buf.length⟩ else acc k) hs2
      rw [hok] at h
      exact absurd (congrArg Prod.snd h) (by simp)

theorem placeLoop_spec (H : List Nat → Nat) (fid : String) :
    ∀ (L : List (Nat × List Nat)) (st : Sys) (idx : Nat)
      (acc : Nat → Option ChunkMeta),
    someOnline st → (L.map Prod.fst).Nodup →
    ∃ st' cmap, placeLoop H fid st idx acc L = (st', Except.ok cmap) ∧
      (∀ j, j ∉ L.map Prod.fst → cmap j = acc j) ∧
      (∀ p ∈ L, ∃ nd, nd ∈ NODES ∧
        (getNodeStatus st nd).status = Status.online ∧
        cmap p.1 = some ⟨p.1, nd, H p.2, p.2.length⟩ ∧
        st'.store nd fid p.1 = some p.2) ∧
      (∀ n f j, (f = fid → j ∉ L.map Prod.fst) →
        st'.store n f j = st.store n f j) := by
  intro L
  induction L with
  | nil =>
    intro st idx acc _ _
    exact ⟨st, acc, rfl, fun j _ => rfl,
      fun p hp => absurd hp (List.not_mem_nil p), fun n f j _ => rfl⟩
  | cons p rest ih =>
    intro st idx acc hs hnd
    obtain ⟨i, buf⟩ := p
    have hnotin : i ∉ rest.map Prod.fst := by
      simp only [List.map_cons, List.nodup_cons] at hnd
      exact hnd.1
    have hndrest : (rest.map Prod.fst).Nodup := by
      simp only [List.map_cons, List.nodup_cons] at hnd
      exact hnd.2
    have hfs := findNode_isSome_of_someOnline st hs idx
    cases hf : findNode st idx NODES.length with
    | none => rw [hf] at hfs; exact absurd hfs (by simp)
    | some pr =>
      obtain ⟨nd, idx'⟩ := pr
      obtain ⟨hndm, hon⟩ := findNode_some st NODES.length idx nd idx' hf
      have hs2 : someOnline (placeStep fid st nd i buf) :=
        someOnline_of_status_eq st _ (placeStep_status fid st nd i buf) hs
      obtain ⟨st', cmap, heq, hout, hmem, hframe⟩ :=
        ih (placeStep fid st nd i buf) idx'
          (fun k => if k = i then some ⟨i, nd, H buf, buf.length⟩ else acc k)
          hs2 hndrest
      refine ⟨st', cmap, ?_, ?_, ?_, ?_⟩
      · rw [placeLoop_cons H fid st idx acc i buf rest nd idx' hf, heq]
      · intro j hj
        simp only [List.map_cons, List.mem_cons, not_or] at hj
        obtain ⟨hji, hjr⟩ := hj
        have h2 : (if j = i then some (⟨i, nd, H buf, buf.length⟩ : ChunkMeta)
            else acc j) = acc j := if_neg hji
        exact (hout j hjr).trans h2
      · intro q hq
        rcases List.mem_cons.mp hq with heqq | hqr
        · subst heqq
          refine ⟨nd, hndm, hon, ?_, ?_⟩
          · have h2 : (if i = i then some (⟨i, nd, H buf, buf.length⟩ : ChunkMeta)
                else acc i) = some ⟨i, nd, H buf, buf.length⟩ := if_pos rfl
            exact (hout i hnotin).trans h2
          · have h3 := hframe nd fid i (fun _ => hnotin)
            rw [h3, placeStep_store_same]
        · obtain ⟨nd', hmem', hon', hcm', hst'⟩ := hmem q hqr
          refine ⟨nd', hmem', ?_, hcm', hst'⟩
          rw [placeStep_status] at hon'
          exact hon'
      · intro n f j hcond
        have hj' : f = fid → j ∉ rest.map Prod.fst := by
          intro hffid
          have hthis := hcond hffid
          simp only [List.map_cons, List.mem_cons, not_or] at hthis
          exact hthis.2
        rw [hframe n f j hj']
        apply placeStep_store_other
        rintro ⟨hn, hffid, hji⟩
        have hthis := hcond hffid
        simp only [List.map_cons, List.mem_cons, not_or] at hthis
        exact hthis.1 hji

/-! ### chunkSlices lemmas -/

theorem chunkSlices_map_fst (C : Nat) (b : List Nat) :
    (chunkSlices C b).map Prod.fst = List.range (ceilDiv b.length C) := by
  simp [chunkSlices, List.map_map, Function.comp_def]

theorem mem_chunkSlices (C : Nat) (b : List Nat) (i : Nat)
    (hi : i < ceilDiv b.length C) : (i, sliceAt C b i) ∈ chunkSlices C b := by
  simp only [chunkSlices, List.mem_map]
  exact ⟨i, List.mem_range.mpr hi, rfl⟩

/-! ### upload characterization -/

theorem upload_ok_spec (C : Nat) (H : List Nat → Nat) (st : Sys)
    (fid nm : String) (b : List Nat) (hs : someOnline st) :
    ∃ st' fm, upload C H st fid nm b =
        (st', Except.ok ⟨fid, nm, ceilDiv b.length C⟩) ∧
      st'.metadataFile = some ⟨fun g => if g = fid then some fm
        else (readMetadata st).files g⟩ ∧
      fm.fileId = fid ∧ fm.originalName = nm ∧ fm.size = b.length ∧
      fm.totalChunks = ceilDiv b.length C ∧ fm.fileHash = H b ∧
      (∀ j, ceilDiv b.length C ≤ j → fm.chunks j = none) ∧
      (∀ i, i < ceilDiv b.length C → ∃ nd, nd ∈ NODES ∧
        (getNodeStatus st nd).status = Status.online ∧
        fm.chunks i = some ⟨i, nd, H (sliceAt C b i), (sliceAt C b i).length⟩ ∧
        st'.store nd fid i = some (sliceAt C b i)) ∧
      (∀ m, (getNodeStatus st' m).status = (getNodeStatus st m).status ∧
            (getNodeStatus st' m).chunkCount = (getNodeStatus st m).chunkCount) ∧
      (∀ n f j, (f = fid → ceilDiv b.length C ≤ j) →
        st'.store n f j = st.store n f j) ∧
      st'.clock = st.clock := by
  have hnodup : ((chunkSlices C b).map Prod.fst).Nodup := by
    rw [chunkSlices_map_fst]
    exact List.nodup_range _
  obtain ⟨stL, cmap, heq, hout, hmem, hframe⟩ :=
    placeLoop_spec H fid (chunkSlices C b) st 0 (fun _ => none) hs hnodup
  have hpres := placeLoop_preserves H fid (chunkSlices C b) st 0 (fun _ => none)
  rw [heq] at hpres
  obtain ⟨hreg, hmeta, hclock⟩ := hpres
  refine ⟨writeMetadata stL ⟨fun g => if g = fid then
      some ⟨fid, nm, b.length, ceilDiv b.length C, st.clock, H b, cmap⟩
    else (readMetadata st).files g⟩,
    ⟨fid, nm, b.length, ceilDiv b.length C, st.clock, H b, cmap⟩,
    ?_, rfl, rfl, rfl, rfl, rfl, rfl, ?_, ?_, ?_, ?_, ?_⟩
  · unfold upload
    rw [heq]
  · intro j hj
    have hjn : j ∉ (chunkSlices C b).map Prod.fst := by
      rw [chunkSlices_map_fst, List.mem_range]
      omega
    exact hout j hjn
  · intro i hi
    obtain ⟨nd, hndm, hon, hcm, hst⟩ := hmem _ (mem_chunkSlices C b i hi)
    exact ⟨nd, hndm, hon, hcm, hst⟩
  · intro m
    exact hreg m
  · intro n f j hcond
    apply hframe
    intro hffid
    rw [chunkSlices_map_fst, List.mem_range]
    have := hcond hffid
    omega
  · exact hclock

/-! ### Arithmetic of `ceilDiv` and slice lengths -/

theorem ceilDiv_eq (C L : Nat) (hC : 0 < C) :
    ceilDiv L C = L / C + if L % C = 0 then 0 else 1 := by
  obtain ⟨q, r, hr, rfl⟩ : ∃ q r, r < C ∧ L = C * q + r :=
    ⟨L / C, L % C, Nat.mod_lt L hC, ((Nat.div_add_mod L C).symm :)⟩
  have hdiv : (C * q + r) / C = q + r / C := Nat.mul_add_div hC q r
  have hrdiv : r / C = 0 := Nat.div_eq_of_lt hr
  have hmod : (C * q + r) % C = r % C := Nat.mul_add_mod C q r
  have hrm : r % C = r := Nat.mod_eq_of_lt hr
  by_cases h0 : r = 0
  · subst h0
    rw [hdiv, hrdiv, hmod, hrm, if_pos rfl]
    unfold ceilDiv
    have harith : C * q + 0 + C - 1 = C * q + (C - 1) := by omega
    rw [harith, Nat.mul_add_div hC, Nat.div_eq_of_lt (by omega)]
  · rw [hdiv, hrdiv, hmod, hrm, if_neg h0]
    unfold ceilDiv
    have hCq : C * (q + 1) = C * q + C := by ring
    have harith : C * q + r + C - 1 = C * (q + 1) + (r - 1) := by
      rw [hCq]; omega
    rw [harith, Nat.mul_add_div hC, Nat.div_eq_of_lt (by omega)]

theorem le_ceilDiv_mul (C L : Nat) (hC : 0 < C) : L ≤ ceilDiv L C * C := by
  rw [ceilDiv_eq C L hC]
  have hd := Nat.div_add_mod L C
  have hm := Nat.mod_lt L hC
  by_cases h0 : L % C = 0
  · rw [if_pos h0]
    have : (L / C + 0) * C = C * (L / C) := by ring
    omega
  · rw [if_neg h0]
    have : (L / C + 1) * C = C * (L / C) + C := by ring
    omega

theorem ceilDiv_le (C L n : Nat) (hC : 0 < C) (h : L ≤ n * C) :
    ceilDiv L C ≤ n := by
  unfold ceilDiv
  rw [← Nat.lt_succ_iff, Nat.div_lt_iff_lt_mul hC]
  have hsm : Nat.succ n * C = n * C + C := Nat.succ_mul n C
  omega

theorem ceilDiv_pos (C L : Nat) (hC : 0 < C) (hL : 0 < L) :
    0 < ceilDiv L C := by
  have hle := le_ceilDiv_mul C L hC
  rcases Nat.eq_zero_or_pos (ceilDiv L C) with h0 | h0
  · rw [h0, Nat.zero_mul] at hle
    omega
  · exact h0

theorem ceilDiv_zero_left (C : Nat) : ceilDiv 0 C = 0 := by
  unfold ceilDiv
  rcases Nat.eq_zero_or_pos C with h | h
  · subst h; rfl
  · exact Nat.div_eq_of_lt (by omega)

theorem sliceAt_length (C : Nat) (b : List Nat) (i : Nat) :
    (sliceAt C b i).length = min C (b.length - i * C) := by
  simp [sliceAt]

theorem sliceAt_length_full (C L : Nat) (hC : 0 < C) (b : List Nat)
    (hb : b.length = L) (i : Nat) (hi : i + 1 < ceilDiv L C) :
    (sliceAt C b i).length = C := by
  rw [sliceAt_length, hb]
  have h2 : (i + 1) * C ≤ (ceilDiv L C - 1) * C :=
    Nat.mul_le_mul_right _ (by omega)
  have h3 : (ceilDiv L C - 1) * C < L := by
    by_contra h4
    have h5 : L ≤ (ceilDiv L C - 1) * C := by omega
    have := ceilDiv_le C L (ceilDiv L C - 1) hC h5
    omega
  have h6 : (i + 1) * C = i * C + C := by ring
  omega

theorem sliceAt_length_last (C L : Nat) (hC : 0 < C) (b : List Nat)
    (hb : b.length = L) (hpos : 0 < ceilDiv L C) :
    (sliceAt C b (ceilDiv L C - 1)).length =
      if L % C = 0 then C else L % C := by
  rw [sliceAt_length, hb]
  have hd := Nat.div_add_mod L C
  have hm := Nat.mod_lt L hC
  have hceq := ceilDiv_eq C L hC
  by_cases h0 : L % C = 0
  · rw [if_pos h0]
    rw [if_pos h0] at hceq
    have hq : 0 < L / C := by omega
    have hmul : (ceilDiv L C - 1) * C = C * (L / C) - C := by
      rw [hceq, Nat.add_zero, Nat.sub_mul, Nat.one_mul, Nat.mul_comm]
    have hCt : C * 1 ≤ C * (L / C) := Nat.mul_le_mul_left C hq
    rw [Nat.mul_one] at hCt
    rw [hmul]
    omega
  · rw [if_neg h0]
    rw [if_neg h0] at hceq
    have hmul : (ceilDiv L C - 1) * C = C * (L / C) := by
      rw [hceq, Nat.add_sub_cancel, Nat.mul_comm]
    rw [hmul]
    omega

theorem flatten_slices (C : Nat) (hC : 0 < C) (b : List Nat) :
    ((List.range (ceilDiv b.length C)).map (sliceAt C b)).flatten = b := by
  have key : ∀ n, ((List.range n).map (sliceAt C b)).flatten = b.take (n * C) := by
    intro n
    induction n with
    | zero => simp
    | succ k ih =>
      rw [List.range_succ, List.map_append, List.flatten_append, ih]
      simp only [List.map_cons, List.map_nil, List.flatten_cons,
        List.flatten_nil, List.append_nil]
      have hsucc : (k + 1) * C = k * C + C := by ring
      have hstep : b.take (k * C) ++ (b.drop (k * C)).take C =
          b.take (k * C + C) := by
        have h1 : (b.drop (k * C)).take C = (b.take (k * C + C)).drop (k * C) :=
          List.take_drop (k * C) C b
        have h2 : b.take (k * C) = (b.take (k * C + C)).take (k * C) := by
          rw [List.take_take]
          congr 1
          omega
        rw [h1, h2, List.take_append_drop]
      rw [hsucc, sliceAt, hstep]
  rw [key]
  exact List.take_of_length_le (le_ceilDiv_mul C b.length hC)

/-! ### Reconstruction lemmas -/

theorem chunkFetch_or_miss (H : List Nat → Nat) (st : Sys) (fid : String)
    (fi : FileMeta) (i : Nat) (h : (fi.chunks i).isSome) :
    ((chunkFetch H st fid fi i).isSome ∧ chunkMiss H st fid fi i = none) ∨
    (chunkFetch H st fid fi i = none ∧ (chunkMiss H st fid fi i).isSome) := by
  cases hc : fi.chunks i with
  | none => rw [hc] at h; exact absurd h (by simp)
  | some ci =>
    by_cases hon : (getNodeStatus st ci.node).status = Status.online
    · cases hs : st.store ci.node fid i with
      | none => right; simp [chunkFetch, chunkMiss, hc, hon, hs]
      | some buf =>
        by_cases hh : H buf = ci.hash
        · left; simp [chunkFetch, chunkMiss, hc, hon, hs, hh]
        · right; simp [chunkFetch, chunkMiss, hc, hon, hs, hh]
    · right; simp [chunkFetch, chunkMiss, hc, hon]

theorem collectChunks_ok (H : List Nat → Nat) (st : Sys) (fid : String)
    (fi : FileMeta) :
    ∀ is : List Nat, (∀ i ∈ is, (fi.chunks i).isSome) →
    collectChunks H st fid fi is =
      Except.ok (is.map (chunkFetch H st fid fi),
                 is.filterMap (chunkMiss H st fid fi)) := by
  intro is
  induction is with
  | nil => intro _; rfl
  | cons i rest ih =>
    intro h
    unfold collectChunks
    rw [if_pos (h i (List.mem_cons_self i rest)),
      ih (fun j hj => h j (List.mem_cons_of_mem i hj)), List.filterMap_cons,
      List.map_cons]
    cases chunkMiss H st fid fi i <;> simp

theorem collectChunks_ok_inv (H : List Nat → Nat) (st : Sys) (fid : String)
    (fi : FileMeta) :
    ∀ (is : List Nat) (cs : List (Option (List Nat))) (ms : List Missing),
    collectChunks H st fid fi is = Except.ok (cs, ms) →
    ∀ i ∈ is, (fi.chunks i).isSome := by
  intro is
  induction is with
  | nil => intro cs ms _ i hi; exact absurd hi (List.not_mem_nil i)
  | cons i rest ih =>
    intro cs ms h j hj
    unfold collectChunks at h
    by_cases hi : (fi.chunks i).isSome
    · rcases List.mem_cons.mp hj with rfl | hjr
      · exact hi
      · rw [if_pos hi] at h
        cases hr : collectChunks H st fid fi rest with
        | error e => rw [hr] at h; exact absurd h (by simp)
        | ok pr =>
          obtain ⟨cs', ms'⟩ := pr
          exact ih cs' ms' hr j hjr
    · rw [if_neg hi] at h
      exact absurd h (by simp)

theorem miss_fetch_length (H : List Nat → Nat) (st : Sys) (fid : String)
    (fi : FileMeta) :
    ∀ is : List Nat, (∀ i ∈ is, (fi.chunks i).isSome) →
    (is.filterMap (chunkMiss H st fid fi)).length +
      ((is.map (chunkFetch H st fid fi)).filter Option.isSome).length =
      is.length := by
  intro is
  induction is with
  | nil => intro _; rfl
  | cons i rest ih =>
    intro h
    have hrest := ih (fun j hj => h j (List.mem_cons_of_mem i hj))
    rw [List.filterMap_cons, List.map_cons]
    rcases chunkFetch_or_miss H st fid fi i (h i (List.mem_cons_self i rest))
      with ⟨hf, hm⟩ | ⟨hf, hm⟩
    · rw [hm, List.filter_cons_of_pos hf]
      simp only [List.length_cons]
      omega
    · cases hmm : chunkMiss H st fid fi i with
      | none => rw [hmm] at hm; exact absurd hm (by simp)
      | some m =>
        simp [hf]
        omega

theorem mem_filterMap_miss (H : List Nat → Nat) (st : Sys) (fid : String)
    (fi : FileMeta) (is : List Nat) (m : Missing)
    (hm : m ∈ is.filterMap (chunkMiss H st fid fi)) :
    ∃ ci, fi.chunks m.chunkId = some ci ∧ m.node = ci.node ∧
      ((m.reason = MissReason.nodeOffline ∧
          (getNodeStatus st ci.node).status ≠ Status.online) ∨
       (m.reason = MissReason.readFailure ∧
          (getNodeStatus st ci.node).status = Status.online ∧
          st.store ci.node fid m.chunkId = none) ∨
       (m.reason = MissReason.hashMismatch ∧
          (getNodeStatus st ci.node).status = Status.online ∧
          ∃ buf, st.store ci.node fid m.chunkId = some buf ∧
            H buf ≠ ci.hash)) := by
  obtain ⟨i, _, hmi⟩ := List.mem_filterMap.mp hm
  cases hc : fi.chunks i with
  | none => simp [chunkMiss, hc] at hmi
  | some ci =>
    by_cases hon : (getNodeStatus st ci.node).status = Status.online
    · cases hs : st.store ci.node fid i with
      | none =>
        have hmv : m = ⟨i, ci.node, MissReason.readFailure⟩ := by
          have : chunkMiss H st fid fi i =
              some ⟨i, ci.node, MissReason.readFailure⟩ := by
            simp [chunkMiss, hc, hon, hs]
          rw [this] at hmi
          exact (Option.some.inj hmi).symm
        subst hmv
        exact ⟨ci, hc, rfl, Or.inr (Or.inl ⟨rfl, hon, hs⟩)⟩
      | some buf =>
        by_cases hh : H buf = ci.hash
        · have : chunkMiss H st fid fi i = none := by
            simp [chunkMiss, hc, hon, hs, hh]
          rw [this] at hmi
          exact absurd hmi (by simp)
        · have hmv : m = ⟨i, ci.node, MissReason.hashMismatch⟩ := by
            have : chunkMiss H st fid fi i =
                some ⟨i, ci.node, MissReason.hashMismatch⟩ := by
              simp [chunkMiss, hc, hon, hs, hh]
            rw [this] at hmi
            exact (Option.some.inj hmi).symm
          subst hmv
          exact ⟨ci, hc, rfl, Or.inr (Or.inr ⟨rfl, hon, buf, hs, hh⟩)⟩
    · have hmv : m = ⟨i, ci.node, MissReason.nodeOffline⟩ := by
        have : chunkMiss H st fid fi i =
            some ⟨i, ci.node, MissReason.nodeOffline⟩ := by
          simp [chunkMiss, hc, hon]
        rw [this] at hmi
        exact (Option.some.inj hmi).symm
      subst hmv
      exact ⟨ci, hc, rfl, Or.inl ⟨rfl, hon⟩⟩

theorem reconstruct_unfold (H : List Nat → Nat) (st : Sys) (fid : String)
    (fi : FileMeta) (hfi : (readMetadata st).files fid = some fi)
    (hwf : ∀ i ∈ List.range fi.totalChunks, (fi.chunks i).isSome) :
    reconstruct H st fid =
      (if (((List.range fi.totalChunks).map (chunkFetch H st fid fi)).filter
            Option.isSome).length = fi.totalChunks then
        (if H ((((List.range fi.totalChunks).map (chunkFetch H st fid fi)).map
              (fun c => c.getD [])).flatten) = fi.fileHash then
          Except.ok ⟨"success",
            (((List.range fi.totalChunks).map (chunkFetch H st fid fi)).filter
              Option.isSome).length, fi.totalChunks,
            (List.range fi.totalChunks).filterMap (chunkMiss H st fid fi),
            some ((((List.range fi.totalChunks).map
              (chunkFetch H st fid fi)).map (fun c => c.getD [])).flatten)⟩
        else Except.error RecoError.fileIntegrityFailure)
      else
        Except.ok ⟨if 0 <
            (((List.range fi.totalChunks).map (chunkFetch H st fid fi)).filter
              Option.isSome).length then "partial" else "failed",
          (((List.range fi.totalChunks).map (chunkFetch H st fid fi)).filter
            Option.isSome).length, fi.totalChunks,
          (List.range fi.totalChunks).filterMap (chunkMiss H st fid fi),
          none⟩) := by
  simp only [reconstruct, hfi, collectChunks_ok H st fid fi _ hwf]
  by_cases ha : (((List.range fi.totalChunks).map (chunkFetch H st fid fi)).filter
      Option.isSome).length = fi.totalChunks
  · simp only [ha, if_pos]
  · simp only [ha, if_neg, if_false]

theorem reconstruct_success (H : List Nat → Nat) (st : Sys) (fid : String)
    (fi : FileMeta) (b : List Nat) (C : Nat) (hC : 0 < C)
    (hfi : (readMetadata st).files fid = some fi)
    (htot : fi.totalChunks = ceilDiv b.length C)
    (hhash : fi.fileHash = H b)
    (hch : ∀ i, i < fi.totalChunks → ∃ cm, fi.chunks i = some cm ∧
      (getNodeStatus st cm.node).status = Status.online ∧
      st.store cm.node fid i = some (sliceAt C b i) ∧
      cm.hash = H (sliceAt C b i)) :
    reconstruct H st fid =
      Except.ok ⟨"success", fi.totalChunks, fi.totalChunks, [], some b⟩ := by
  have hwf : ∀ i ∈ List.range fi.totalChunks, (fi.chunks i).isSome := by
    intro i hi
    obtain ⟨cm, hcm, _⟩ := hch i (List.mem_range.mp hi)
    rw [hcm]; rfl
  have hfetch : ∀ i ∈ List.range fi.totalChunks,
      chunkFetch H st fid fi i = some (sliceAt C b i) := by
    intro i hi
    obtain ⟨cm, hcm, hon, hst, hh⟩ := hch i (List.mem_range.mp hi)
    simp [chunkFetch, hcm, hon, hst, hh]
  have hmiss : ∀ i ∈ List.range fi.totalChunks,
      chunkMiss H st fid fi i = none := by
    intro i hi
    obtain ⟨cm, hcm, hon, hst, hh⟩ := hch i (List.mem_range.mp hi)
    simp [chunkMiss, hcm, hon, hst, hh]
  have hcs : (List.range fi.totalChunks).map (chunkFetch H st fid fi) =
      (List.range fi.totalChunks).map (fun i => some (sliceAt C b i)) :=
    List.map_congr_left hfetch
  have hms : (List.range fi.totalChunks).filterMap (chunkMiss H st fid fi) =
      [] := List.filterMap_eq_nil_iff.mpr hmiss
  have hflat : (((List.range fi.totalChunks).map (chunkFetch H st fid fi)).map
      (fun c => c.getD [])).flatten = b := by
    rw [hcs, List.map_map]
    have : ((fun c => Option.getD c []) ∘ fun i => some (sliceAt C b i)) =
        sliceAt C b := by
      funext i
      rfl
    rw [this, htot, flatten_slices C hC b]
  have hlen : (((List.range fi.totalChunks).map (chunkFetch H st fid fi)).filter
      Option.isSome).length = fi.totalChunks := by
    rw [hcs]
    rw [List.filter_eq_self.mpr ?_]
    · rw [List.length_map, List.length_range]
    · intro a ha
      obtain ⟨i, _, rfl⟩ := List.mem_map.mp ha
      rfl
  rw [reconstruct_unfold H st fid fi hfi hwf, if_pos hlen, hflat,
    if_pos (by rw [hhash]), hlen, hms]

theorem reconstruct_classification (H : List Nat → Nat) (st : Sys)
    (fid : String) (r : RecoResult)
    (h : reconstruct H st fid = Except.ok r) :
    ∃ fi, (readMetadata st).files fid = some fi ∧
      r.totalChunks = fi.totalChunks ∧
      r.availableChunks ≤ r.totalChunks ∧
      (r.status = "success" ↔ r.availableChunks = r.totalChunks) ∧
      (r.status = "partial" ↔
        0 < r.availableChunks ∧ r.availableChunks < r.totalChunks) ∧
      (r.status = "failed" ↔ r.availableChunks = 0 ∧ 0 < r.totalChunks) ∧
      r.missingChunks.length = r.totalChunks - r.availableChunks ∧
      (∀ m ∈ r.missingChunks, ∃ ci, fi.chunks m.chunkId = some ci ∧
        m.node = ci.node ∧
        ((m.reason = MissReason.nodeOffline ∧
            (getNodeStatus st ci.node).status ≠ Status.online) ∨
         (m.reason = MissReason.readFailure ∧
            (getNodeStatus st ci.node).status = Status.online ∧
            st.store ci.node fid m.chunkId = none) ∨
         (m.reason = MissReason.hashMismatch ∧
            (getNodeStatus st ci.node).status = Status.online ∧
            ∃ buf, st.store ci.node fid m.chunkId = some buf ∧
              H buf ≠ ci.hash))) := by
  cases hfi : (readMetadata st).files fid with
  | none =>
    simp only [reconstruct, hfi] at h
    exact absurd h (by simp)
  | some fi =>
    refine ⟨fi, rfl, ?_⟩
    have hwf : ∀ i ∈ List.range fi.totalChunks, (fi.chunks i).isSome := by
      simp only [reconstruct, hfi] at h
      cases hcol : collectChunks H st fid fi (List.range fi.totalChunks) with
      | error e => rw [hcol] at h; simp at h
      | ok pr =>
        obtain ⟨cs, ms⟩ := pr
        exact collectChunks_ok_inv H st fid fi _ cs ms hcol
    rw [reconstruct_unfold H st fid fi hfi hwf] at h
    have hle : (((List.range fi.totalChunks).map (chunkFetch H st fid fi)).filter
        Option.isSome).length ≤ fi.totalChunks := by
      calc (((List.range fi.totalChunks).map (chunkFetch H st fid fi)).filter
          Option.isSome).length
          ≤ ((List.range fi.totalChunks).map (chunkFetch H st fid fi)).length :=
            List.length_filter_le _ _
        _ = fi.totalChunks := by rw [List.length_map, List.length_range]
    have hmslen := miss_fetch_length H st fid fi (List.range fi.totalChunks) hwf
    rw [List.length_range] at hmslen
    set A := (((List.range fi.totalChunks).map (chunkFetch H st fid fi)).filter
      Option.isSome).length with hAdef
    set MS := (List.range fi.totalChunks).filterMap (chunkMiss H st fid fi)
      with hMSdef
    by_cases ha : A = fi.totalChunks
    · rw [if_pos ha] at h
      by_cases hh : H ((((List.range fi.totalChunks).map
          (chunkFetch H st fid fi)).map (fun c => c.getD [])).flatten) =
          fi.fileHash
      · rw [if_pos hh] at h
        have hr := (Except.ok.inj h).symm
        have hstat : r.status = "success" := by rw [hr]
        have hav : r.availableChunks = A := by rw [hr]
        have htc : r.totalChunks = fi.totalChunks := by rw [hr]
        have hmc : r.missingChunks = MS := by rw [hr]
        refine ⟨htc, ?_, ?_, ?_, ?_, ?_, ?_⟩
        · rw [hav, htc]; omega
        · rw [hstat, hav, htc]
          exact ⟨fun _ => ha, fun _ => rfl⟩
        · rw [hstat, hav, htc]
          exact ⟨fun hcon => absurd hcon (by decide),
            fun hcon => absurd hcon (by omega)⟩
        · rw [hstat, hav, htc]
          exact ⟨fun hcon => absurd hcon (by decide),
            fun hcon => absurd hcon (by omega)⟩
        · rw [hmc, htc, hav]; omega
        · intro m hm
          rw [hmc, hMSdef] at hm
          exact mem_filterMap_miss H st fid fi _ m hm
      · rw [if_neg hh] at h
        exact absurd h (by simp)
    · rw [if_neg ha] at h
      have hr := (Except.ok.inj h).symm
      have hstat : r.status = if 0 < A then "partial" else "failed" := by rw [hr]
      have hav : r.availableChunks = A := by rw [hr]
      have htc : r.totalChunks = fi.totalChunks := by rw [hr]
      have hmc : r.missingChunks = MS := by rw [hr]
      refine ⟨htc, ?_, ?_, ?_, ?_, ?_, ?_⟩
      · rw [hav, htc]; omega
      · rw [hstat, hav, htc]
        by_cases hz : 0 < A
        · rw [if_pos hz]
          exact ⟨fun hcon => absurd hcon (by decide), fun hcon => absurd hcon ha⟩
        · rw [if_neg hz]
          exact ⟨fun hcon => absurd hcon (by decide), fun hcon => absurd hcon ha⟩
      · rw [hstat, hav, htc]
        by_cases hz : 0 < A
        · rw [if_pos hz]
          exact ⟨fun _ => ⟨hz, by omega⟩, fun _ => rfl⟩
        · rw [if_neg hz]
          exact ⟨fun hcon => absurd hcon (by decide),
            fun hcon => absurd hcon (by omega)⟩
      · rw [hstat, hav, htc]
        by_cases hz : 0 < A
        · rw [if_pos hz]
          exact ⟨fun hcon => absurd hcon (by decide),
            fun hcon => absurd hcon (by omega)⟩
        · rw [if_neg hz]
          exact ⟨fun _ => ⟨by omega, by omega⟩, fun _ => rfl⟩
      · rw [hmc, htc, hav]; omega
      · intro m hm
        rw [hmc, hMSdef] at hm
        exact mem_filterMap_miss H st fid fi _ m hm

/-! ### Further helper lemmas -/

theorem getNodeStatus_update (st : Sys) (nd : String) (s : Status)
    (m : String) :
    getNodeStatus (updateNodeStatus st nd s).1 m =
      if m = nd then
        { getNodeStatus st nd with status := s, lastSeen := some st.clock }
      else getNodeStatus st m := by
  by_cases h : m = nd <;>
    simp [updateNodeStatus, writeNodeStatus, getNodeStatus, h]

theorem toggleNode_some_state (st : Sys) (nd : String) (s : Status)
    (hn : nd ∈ NODES) :
    (toggleNode st nd (some s)).1 = (updateNodeStatus st nd s).1 := by
  unfold toggleNode
  rw [if_pos (List.elem_iff.mpr hn)]
  rfl

theorem toggleNode_store (st : Sys) (nd : String) (s? : Option Status) :
    (toggleNode st nd s?).1.store = st.store := by
  unfold toggleNode updateNodeStatus writeNodeStatus
  split <;> rfl

theorem toggleNode_metadataFile (st : Sys) (nd : String) (s? : Option Status) :
    (toggleNode st nd s?).1.metadataFile = st.metadataFile := by
  unfold toggleNode updateNodeStatus writeNodeStatus
  split <;> rfl

theorem toggleNode_clock (st : Sys) (nd : String) (s? : Option Status) :
    (toggleNode st nd s?).1.clock = st.clock := by
  unfold toggleNode updateNodeStatus writeNodeStatus
  split <;> rfl

theorem readMetadata_congr (st st' : Sys)
    (h : st.metadataFile = st'.metadataFile) :
    readMetadata st = readMetadata st' := by
  unfold readMetadata
  rw [h]

theorem allOnline_of_status_eq (st st' : Sys)
    (h : ∀ m, (getNodeStatus st' m).status = (getNodeStatus st m).status)
    (hs : allOnline st) : allOnline st' := by
  intro n hn
  exact (h n).trans (hs n hn)

theorem all_isSome_of_filter_length {α : Type} (l : List (Option α))
    (h : (l.filter Option.isSome).length = l.length) :
    ∀ x ∈ l, x.isSome := by
  induction l with
  | nil => simp
  | cons a l ih =>
    intro x hx
    by_cases hp : a.isSome
    · rcases List.mem_cons.mp hx with rfl | hxl
      · exact hp
      · refine ih ?_ x hxl
        rw [List.filter_cons_of_pos hp] at h
        simpa using h
    · exfalso
      rw [List.filter_cons_of_neg (by simpa using hp)] at h
      have := List.length_filter_le Option.isSome l
      simp only [List.length_cons] at h
      omega

theorem chunkFetch_some (H : List Nat → Nat) (st : Sys) (fid : String)
    (fi : FileMeta) (i : Nat) (buf : List Nat)
    (h : chunkFetch H st fid fi i = some buf) :
    ∃ ci, fi.chunks i = some ci ∧
      (getNodeStatus st ci.node).status = Status.online ∧
      st.store ci.node fid i = some buf ∧ H buf = ci.hash := by
  cases hc : fi.chunks i with
  | none => simp [chunkFetch, hc] at h
  | some ci =>
    by_cases hon : (getNodeStatus st ci.node).status = Status.online
    · cases hs : st.store ci.node fid i with
      | none => simp [chunkFetch, hc, hon, hs] at h
      | some buf' =>
        by_cases hh : H buf' = ci.hash
        · have hb : buf' = buf := by
            have : chunkFetch H st fid fi i = some buf' := by
              simp [chunkFetch, hc, hon, hs, hh]
            rw [this] at h
            exact Option.some.inj h
          subst hb
          exact ⟨ci, rfl, hon, hs, hh⟩
        · simp [chunkFetch, hc, hon, hs, hh] at h
    · simp [chunkFetch, hc, hon] at h

theorem flatten_fetch_eq (H : List Nat → Nat) (st2 : Sys) (fid : String)
    (fm : FileMeta) (C : Nat) (hC : 0 < C) (b : List Nat)
    (htot : fm.totalChunks = ceilDiv b.length C)
    (hfe : ∀ i ∈ List.range fm.totalChunks,
      chunkFetch H st2 fid fm i = some (sliceAt C b i)) :
    (((List.range fm.totalChunks).map (chunkFetch H st2 fid fm)).map
      (fun c => c.getD [])).flatten = b := by
  rw [List.map_congr_left hfe, List.map_map]
  have hcomp : ((fun c => Option.getD c []) ∘ fun i => some (sliceAt C b i)) =
      sliceAt C b := by
    funext i
    rfl
  rw [hcomp, htot, flatten_slices C hC b]

theorem placeLoop_allOnline_nodes (H : List Nat → Nat) (fid : String) :
    ∀ (L : List (Nat × List Nat)) (st : Sys) (idx : Nat)
      (acc : Nat → Option ChunkMeta),
    allOnline st → (L.map Prod.fst).Nodup →
    ∃ st' cmap, placeLoop H fid st idx acc L = (st', Except.ok cmap) ∧
      (∀ j, j ∉ L.map Prod.fst → cmap j = acc j) ∧
      ∀ k, (hk : k < L.length) →
        cmap (L.get ⟨k, hk⟩).1 =
          some ⟨(L.get ⟨k, hk⟩).1,
            NODES.getD ((idx + k) % NODES.length) "",
            H (L.get ⟨k, hk⟩).2, (L.get ⟨k, hk⟩).2.length⟩ := by
  intro L
  induction L with
  | nil =>
    intro st idx acc _ _
    exact ⟨st, acc, rfl, fun j _ => rfl, fun k hk => absurd hk (by simp)⟩
  | cons p rest ih =>
    intro st idx acc hall hnd
    obtain ⟨i, buf⟩ := p
    have hnotin : i ∉ rest.map Prod.fst := by
      simp only [List.map_cons, List.nodup_cons] at hnd
      exact hnd.1
    have hndrest : (rest.map Prod.fst).Nodup := by
      simp only [List.map_cons, List.nodup_cons] at hnd
      exact hnd.2
    have hf := findNode_allOnline st hall idx
    have hall2 : allOnline (placeStep fid st (NODES.getD (idx % NODES.length) "")
        i buf) :=
      allOnline_of_status_eq st _ (placeStep_status fid st _ i buf) hall
    obtain ⟨st', cmap, heq, hout, hnodes⟩ :=
      ih (placeStep fid st (NODES.getD (idx % NODES.length) "") i buf) (idx + 1)
        (fun k => if k = i then
          some ⟨i, NODES.getD (idx % NODES.length) "", H buf, buf.length⟩
          else acc k) hall2 hndrest
    refine ⟨st', cmap, ?_, ?_, ?_⟩
    · rw [placeLoop_cons H fid st idx acc i buf rest _ _ hf, heq]
    · intro j hj
      simp only [List.map_cons, List.mem_cons, not_or] at hj
      obtain ⟨hji, hjr⟩ := hj
      have h2 : (if j = i then
          some (⟨i, NODES.getD (idx % NODES.length) "", H buf, buf.length⟩ :
            ChunkMeta) else acc j) = acc j := if_neg hji
      exact (hout j hjr).trans h2
    · intro k hk
      cases k with
      | zero =>
        have h2 : (if i = i then
            some (⟨i, NODES.getD (idx % NODES.length) "", H buf, buf.length⟩ :
              ChunkMeta) else acc i) =
            some ⟨i, NODES.getD (idx % NODES.length) "", H buf, buf.length⟩ :=
          if_pos rfl
        have harith : idx + 0 = idx := rfl
        exact (hout i hnotin).trans h2
      | succ k' =>
        have hk' : k' < rest.length := by
          simpa using hk
        have := hnodes k' hk'
        have harith : idx + 1 + k' = idx + (k' + 1) := by omega
        rw [harith] at this
        exact this

instance instDecEqExcept {ε α : Type} [DecidableEq ε] [DecidableEq α] :
    DecidableEq (Except ε α) := fun x y =>
  match x, y with
  | Except.error a, Except.error b =>
    if h : a = b then isTrue (by rw [h])
    else isFalse (fun hc => h (Except.error.inj hc))
  | Except.error _, Except.ok _ => isFalse (fun hc => Except.noConfusion hc)
  | Except.ok _, Except.error _ => isFalse (fun hc => Except.noConfusion hc)
  | Except.ok a, Except.ok b =>
    if h : a = b then isTrue (by rw [h])
    else isFalse (fun hc => h (Except.ok.inj hc))

/-- A concrete injective digest function used by the witnesses, built from
the Cantor pairing function. -/
def pairHash : List Nat → Nat
  | [] => 0
  | a :: l => Nat.pair a (pairHash l) + 1

theorem pairHash_injective : Function.Injective pairHash := by
  intro x
  induction x with
  | nil =>
    intro y h
    cases y with
    | nil => rfl
    | cons b m => simp [pairHash] at h
  | cons a l ih =>
    intro y h
    cases y with
    | nil => simp [pairHash] at h
    | cons b m =>
      simp only [pairHash] at h
      have h2 : Nat.pair a (pairHash l) = Nat.pair b (pairHash m) := by omega
      obtain ⟨rfl, h3⟩ := Nat.pair_eq_pair.mp h2
      rw [ih h3]

/-- All four nodes toggled offline, starting from the freshly initialized
system. -/
def stAllOff : Sys :=
  (toggleNode (toggleNode (toggleNode (toggleNode initState "node1"
    (some Status.offline)).1 "node2" (some Status.offline)).1 "node3"
    (some Status.offline)).1 "node4" (some Status.offline)).1

/-! ### Claim theorems -/

/-- C7: `getNodeStatus` never fails: when no status record exists for the
node, it returns the synthesized state with status Offline, `chunkCount`
0, and an absent `lastSeen`, rather than raising an error. -/
theorem getStatus_total (st : Sys) (nodeId : String)
    (h : st.nodes nodeId = none) :
    getNodeStatus st nodeId = ⟨nodeId, Status.offline, 0, none⟩ := by
  unfold getNodeStatus
  rw [h]

/-- Witness for C7: the freshly initialized system has no record for the
node id `ghost`, and `getNodeStatus` synthesizes the Offline/zero state
for it. -/
theorem getStatus_total_witness :
    initState.nodes "ghost" = none ∧
    getNodeStatus initState "ghost" = ⟨"ghost", Status.offline, 0, none⟩ :=
  ⟨by decide, getStatus_total initState "ghost" (by decide)⟩

/-- C10: reading the catalog is total: when the metadata file is absent,
unreadable or unparseable (all modelled by `metadataFile = none`, since
`readMetadata` catches every failure), `readMetadata` returns the empty
catalog and never raises, so every fileId lookup in `reconstruct` reports
`FileNotFound` rather than surfacing a read error. -/
theorem catalog_read_total (H : List Nat → Nat) (st : Sys)
    (h : st.metadataFile = none) :
    readMetadata st = ⟨fun _ => none⟩ ∧
    ∀ fid, reconstruct H st fid = Except.error RecoError.fileNotFound := by
  have hrm : readMetadata st = ⟨fun _ => none⟩ := by
    unfold readMetadata
    rw [h]
  refine ⟨hrm, fun fid => ?_⟩
  simp only [reconstruct, hrm]

/-- The initialized system with its metadata file removed (or corrupted
beyond parsing). -/
def stNoMeta : Sys := { initState with metadataFile := none }

/-- Witness for C10: with the metadata file gone, `readMetadata` yields
the empty catalog and `reconstruct` reports `FileNotFound`. -/
theorem catalog_read_total_witness :
    stNoMeta.metadataFile = none ∧
    reconstruct pairHash stNoMeta "f" = Except.error RecoError.fileNotFound :=
  ⟨rfl, (catalog_read_total pairHash stNoMeta rfl).2 "f"⟩

/-- C4 evaluation: the persisted `chunkCount` is never incremented by the
code.  The first conjunct shows that `upload` leaves every node's
persisted `chunkCount` exactly as it was — the in-memory
`nodeStatus.chunkCount++` of server.js line 220 is discarded because
`updateNodeStatus` (line 103) re-reads the record from disk before
writing it — and the second conjunct evaluates the failing input: a
successful two-chunk upload after which the assigned nodes' persisted
counts are still 0. -/
theorem chunkCount_not_persisted :
    (∀ (C : Nat) (H : List Nat → Nat) (st : Sys) (fid nm : String)
      (b : List Nat) (m : String),
      (getNodeStatus (upload C H st fid nm b).1 m).chunkCount =
        (getNodeStatus st m).chunkCount) ∧
    ((upload 2 pairHash initState "f" "a" [7, 8, 9]).2 =
        Except.ok ⟨"f", "a", 2⟩ ∧
      (getNodeStatus (upload 2 pairHash initState "f" "a" [7, 8, 9]).1
        "node1").chunkCount = 0 ∧
      (getNodeStatus (upload 2 pairHash initState "f" "a" [7, 8, 9]).1
        "node2").chunkCount = 0) := by
  constructor
  · intro C H st fid nm b m
    unfold upload
    cases hpl : placeLoop H fid st 0 (fun _ => none) (chunkSlices C b) with
    | mk stL r =>
      have hpres := placeLoop_preserves H fid (chunkSlices C b) st 0
        (fun _ => none)
      rw [hpl] at hpres
      cases r with
      | error e => exact (hpres.1 m).2
      | ok cmap => exact (hpres.1 m).2
  · exact ⟨by decide, by decide, by decide⟩

/-- C6: when placement fails with `NoOnlineNodes`, the call aborts with
nothing durably committed: the resulting state is the input state, so no
manifest becomes visible in the catalog and no partial chunk or node
state persists.  (Within a single sequential call, node statuses cannot
change mid-loop, so the scan can only fail on the very first chunk,
before anything has been written.) -/
theorem placement_all_or_nothing (C : Nat) (H : List Nat → Nat) (st : Sys)
    (fid nm : String) (b : List Nat) (e : String)
    (h : (upload C H st fid nm b).2 = Except.error e) :
    (upload C H st fid nm b).1 = st := by
  unfold upload at h ⊢
  cases hpl : placeLoop H fid st 0 (fun _ => none) (chunkSlices C b) with
  | mk stL r =>
    cases r with
    | error e' =>
      exact placeLoop_error_state H fid (chunkSlices C b) st 0 (fun _ => none)
        stL e' hpl
    | ok cmap =>
      rw [hpl] at h
      simp at h

/-- Witness for C6: with all four nodes offline, uploading one byte fails
with `'No online nodes available'` and the state is exactly the input
state. -/
theorem placement_all_or_nothing_witness :
    (upload 2 pairHash stAllOff "g" "x" [5]).2 =
      Except.error "No online nodes available" ∧
    (upload 2 pairHash stAllOff "g" "x" [5]).1 = stAllOff :=
  ⟨by decide, placement_all_or_nothing 2 pairHash stAllOff "g" "x" [5]
    "No online nodes available" (by decide)⟩

/-- C2: for input length `L` and chunk size `C > 0`, the placement chunk
count `ceilDiv L C` is exactly `⌈L / C⌉` (characterized as the least `n`
with `L ≤ n * C`), every chunk except possibly the last has length
exactly `C`, the last chunk has length `L mod C` (or `C` when
`L mod C = 0`), and a successful `upload` reports exactly this
`totalChunks`. -/
theorem chunking_exact (C L : Nat) (hC : 0 < C) (b : List Nat)
    (hb : b.length = L) :
    (L ≤ ceilDiv L C * C ∧ ∀ n, L ≤ n * C → ceilDiv L C ≤ n) ∧
    (∀ i, i + 1 < ceilDiv L C → (sliceAt C b i).length = C) ∧
    (0 < ceilDiv L C →
      (sliceAt C b (ceilDiv L C - 1)).length =
        if L % C = 0 then C else L % C) ∧
    (∀ (H : List Nat → Nat) (st : Sys) (fid nm : String) (st' : Sys)
      (u : UploadOk), upload C H st fid nm b = (st', Except.ok u) →
      u.totalChunks = ceilDiv L C) := by
  refine ⟨⟨le_ceilDiv_mul C L hC, fun n hn => ceilDiv_le C L n hC hn⟩,
    fun i hi => sliceAt_length_full C L hC b hb i hi,
    fun hpos => sliceAt_length_last C L hC b hb hpos, ?_⟩
  intro H st fid nm st' u hup
  unfold upload at hup
  cases hpl : placeLoop H fid st 0 (fun _ => none) (chunkSlices C b) with
  | mk stL r =>
    rw [hpl] at hup
    cases r with
    | error e => simp at hup
    | ok cmap =>
      have h2 := congrArg Prod.snd hup
      have h3 := Except.ok.inj h2
      rw [← h3, hb]

/-- Witness for C2 at `C = 2`, `L = 3`: two chunks, the first of length
2, the last of length 1. -/
theorem chunking_exact_witness :
    ((0 < 2 ∧ ([5, 6, 7] : List Nat).length = 3) ∧
      (∀ i, i + 1 < ceilDiv 3 2 → (sliceAt 2 [5, 6, 7] i).length = 2)) ∧
    (0 < ceilDiv 3 2 →
      (sliceAt 2 [5, 6, 7] (ceilDiv 3 2 - 1)).length =
        if 3 % 2 = 0 then 2 else 3 % 2) :=
  ⟨⟨⟨by decide, by decide⟩,
    (chunking_exact 2 3 (by decide) [5, 6, 7] (by decide)).2.1⟩,
   (chunking_exact 2 3 (by decide) [5, 6, 7] (by decide)).2.2.1⟩

/-- C1: round-trip.  For every byte sequence `b`, with all nodes online,
uploading `b` succeeds and reconstructing the returned fileId yields the
`'success'` outcome with output bytes byte-for-byte equal to `b`. -/
theorem round_trip (C : Nat) (hC : 0 < C) (H : List Nat → Nat) (st : Sys)
    (hall : allOnline st) (fid nm : String) (b : List Nat) :
    ∃ st', upload C H st fid nm b =
        (st', Except.ok ⟨fid, nm, ceilDiv b.length C⟩) ∧
      reconstruct H st' fid =
        Except.ok ⟨"success", ceilDiv b.length C, ceilDiv b.length C, [],
          some b⟩ := by
  have hs : someOnline st := ⟨"node1", by decide, hall "node1" (by decide)⟩
  obtain ⟨st', fm, hup, hmeta, _, _, _, htot, hhash, hnone, hch, hreg, _, _⟩ :=
    upload_ok_spec C H st fid nm b hs
  refine ⟨st', hup, ?_⟩
  have hfi : (readMetadata st').files fid = some fm := by
    unfold readMetadata
    rw [hmeta]
    simp
  have hsucc := reconstruct_success H st' fid fm b C hC hfi htot hhash ?_
  · rw [htot] at hsucc
    exact hsucc
  · intro i hi
    obtain ⟨nd, hndm, honst, hcm, hstore⟩ := hch i (htot ▸ hi)
    exact ⟨⟨i, nd, H (sliceAt C b i), (sliceAt C b i).length⟩, hcm,
      by rw [(hreg nd).1]; exact honst, hstore, rfl⟩

/-- Witness for C1: uploading the three bytes `[1, 2, 3]` with chunk size
2 into the freshly initialized system and reconstructing yields
`'success'` with exactly those bytes. -/
theorem round_trip_witness :
    (0 < 2 ∧ allOnline initState) ∧
    (∃ st', upload 2 pairHash initState "f" "doc.txt" [1, 2, 3] =
        (st', Except.ok ⟨"f", "doc.txt", ceilDiv 3 2⟩) ∧
      reconstruct pairHash st' "f" =
        Except.ok ⟨"success", ceilDiv 3 2, ceilDiv 3 2, [], some [1, 2, 3]⟩) :=
  ⟨⟨by decide, by unfold allOnline; decide⟩,
   round_trip 2 (by decide) pairHash initState (by unfold allOnline; decide)
     "f" "doc.txt" [1, 2, 3]⟩

/-- C3 counterexample: the round-robin cursor does not persist across
placement calls.  With all four nodes online, the first upload has a
single chunk, placed on `node1`, leaving the in-call cursor at `node2`;
if the cursor persisted across calls as the claim states, the second
upload's first chunk would land on `node2` — instead `nodeIndex` is a
local variable re-initialized to 0 (server.js line 187), so it lands on
`node1` again. -/
theorem cursor_resets_between_uploads_cex :
    ((((readMetadata (upload 2 pairHash initState "f1" "a" [0, 1]).1).files
        "f1").bind (fun fm => fm.chunks 0)).map (fun cm => cm.node)) =
      some "node1" ∧
    ((((readMetadata (upload 2 pairHash (upload 2 pairHash initState "f1" "a"
        [0, 1]).1 "f2" "b" [2, 3]).1).files "f2").bind
        (fun fm => fm.chunks 0)).map (fun cm => cm.node)) = some "node1" ∧
    "node1" ≠ "node2" := by decide

/-- C3 (amended): the round-robin cursor is shared state that advances
across chunks within one placement call, but it is local to the call and
is re-initialized to the first node for every upload: with all nodes
online, chunk `i` of any single upload is assigned to node
`NODES[i mod 4]`, so every upload's first chunk restarts the rotation at
`node1` regardless of where a previous upload's cursor stopped. -/
theorem roundrobin_reset (C : Nat) (H : List Nat → Nat)
    (st : Sys) (hall : allOnline st) (fid nm : String) (b : List Nat) :
    ∃ st' fm, upload C H st fid nm b =
        (st', Except.ok ⟨fid, nm, ceilDiv b.length C⟩) ∧
      (readMetadata st').files fid = some fm ∧
      ∀ i < ceilDiv b.length C, ∃ cm, fm.chunks i = some cm ∧
        cm.node = NODES.getD (i % NODES.length) "" := by
  have hnodup : ((chunkSlices C b).map Prod.fst).Nodup := by
    rw [chunkSlices_map_fst]
    exact List.nodup_range _
  obtain ⟨stL, cmap, heq, hout, hnodes⟩ :=
    placeLoop_allOnline_nodes H fid (chunkSlices C b) st 0 (fun _ => none)
      hall hnodup
  refine ⟨writeMetadata stL ⟨fun g => if g = fid then
      some ⟨fid, nm, b.length, ceilDiv b.length C, st.clock, H b, cmap⟩
    else (readMetadata st).files g⟩,
    ⟨fid, nm, b.length, ceilDiv b.length C, st.clock, H b, cmap⟩,
    ?_, ?_, ?_⟩
  · unfold upload
    rw [heq]
  · simp [readMetadata, writeMetadata]
  · intro i hi
    have hlen : (chunkSlices C b).length = ceilDiv b.length C := by
      simp [chunkSlices]
    have hk : i < (chunkSlices C b).length := by
      rw [hlen]
      exact hi
    have hget : (chunkSlices C b).get ⟨i, hk⟩ = (i, sliceAt C b i) := by
      rw [List.get_eq_getElem]
      unfold chunkSlices
      rw [List.getElem_map, List.getElem_range]
    have hnode := hnodes i hk
    rw [hget] at hnode
    exact ⟨⟨i, NODES.getD ((0 + i) % NODES.length) "", H (sliceAt C b i),
      (sliceAt C b i).length⟩, hnode, by simp⟩

/-- Witness for the amended C3: uploading six bytes with chunk size 2
into the fresh system places chunk `i` on node `i mod 4`
(`node1`, `node2`, `node3`). -/
theorem roundrobin_reset_witness :
    allOnline initState ∧
    (∃ st' fm, upload 2 pairHash initState "f" "a" [1, 2, 3, 4, 5, 6] =
        (st', Except.ok ⟨"f", "a", ceilDiv 6 2⟩) ∧
      (readMetadata st').files "f" = some fm ∧
      ∀ i < ceilDiv 6 2, ∃ cm, fm.chunks i = some cm ∧
        cm.node = NODES.getD (i % NODES.length) "") :=
  ⟨by unfold allOnline; decide,
   roundrobin_reset 2 pairHash initState
     (by unfold allOnline; decide) "f" "a" [1, 2, 3, 4, 5, 6]⟩

/-- The state after uploading a zero-byte file into the fresh system. -/
def stEmpty : Sys := (upload 2 pairHash initState "f" "empty.txt" []).1

/-- C5 counterexample: a stored zero-chunk file (the upload of an empty
byte sequence succeeds with `totalChunks = 0`) reconstructs with
`retrieved = 0` yet outcome `'success'`, not `'failed'`: the code tests
`availableChunks === totalChunks` first, so `retrieved == 0` does not
imply `Failed` when `totalChunks = 0`. -/
theorem empty_file_success_cex :
    (upload 2 pairHash initState "f" "empty.txt" []).2 =
      Except.ok ⟨"f", "empty.txt", 0⟩ ∧
    reconstruct pairHash stEmpty "f" =
      Except.ok ⟨"success", 0, 0, [], some []⟩ ∧
    "success" ≠ "failed" := by decide

/-- C5 (amended): whenever `reconstruct` returns a result, the outcome is
`'success'` exactly when all chunks were retrieved and hash-verified,
`'partial'` exactly when `0 < retrieved < totalChunks`, and `'failed'`
exactly when `retrieved = 0` AND `0 < totalChunks` (a zero-chunk file
reconstructs as `'success'`); the missing list has exactly
`totalChunks - retrieved` entries, each carrying the chunk index, its
recorded node, and a reason that correctly distinguishes node-offline,
integrity-mismatch and read-failure. -/
theorem reconstruction_outcome_classification (H : List Nat → Nat)
    (st : Sys) (fid : String) (r : RecoResult)
    (h : reconstruct H st fid = Except.ok r) :
    ∃ fi, (readMetadata st).files fid = some fi ∧
      r.totalChunks = fi.totalChunks ∧
      r.availableChunks ≤ r.totalChunks ∧
      (r.status = "success" ↔ r.availableChunks = r.totalChunks) ∧
      (r.status = "partial" ↔
        0 < r.availableChunks ∧ r.availableChunks < r.totalChunks) ∧
      (r.status = "failed" ↔ r.availableChunks = 0 ∧ 0 < r.totalChunks) ∧
      r.missingChunks.length = r.totalChunks - r.availableChunks ∧
      (∀ m ∈ r.missingChunks, ∃ ci, fi.chunks m.chunkId = some ci ∧
        m.node = ci.node ∧
        ((m.reason = MissReason.nodeOffline ∧
            (getNodeStatus st ci.node).status ≠ Status.online) ∨
         (m.reason = MissReason.readFailure ∧
            (getNodeStatus st ci.node).status = Status.online ∧
            st.store ci.node fid m.chunkId = none) ∨
         (m.reason = MissReason.hashMismatch ∧
            (getNodeStatus st ci.node).status = Status.online ∧
            ∃ buf, st.store ci.node fid m.chunkId = some buf ∧
              H buf ≠ ci.hash))) :=
  reconstruct_classification H st fid r h

/-- The state after uploading three bytes (two chunks, on `node1` and
`node2`) and then toggling `node1` offline. -/
def stPartialW : Sys :=
  (toggleNode (upload 2 pairHash initState "f" "a" [1, 2, 3]).1 "node1"
    (some Status.offline)).1

/-- The partial reconstruction result for `stPartialW`. -/
def rPartialW : RecoResult :=
  ⟨"partial", 1, 2, [⟨0, "node1", MissReason.nodeOffline⟩], none⟩

/-- Witness for the amended C5: with chunk 0's node offline,
reconstruction returns `'partial'` and the classification facts hold for
the concrete result. -/
theorem reconstruction_outcome_classification_witness :
    reconstruct pairHash stPartialW "f" = Except.ok rPartialW ∧
    (rPartialW.status = "partial" ↔
      0 < rPartialW.availableChunks ∧
      rPartialW.availableChunks < rPartialW.totalChunks) ∧
    rPartialW.missingChunks.length =
      rPartialW.totalChunks - rPartialW.availableChunks := by
  have h : reconstruct pairHash stPartialW "f" = Except.ok rPartialW := by
    decide
  obtain ⟨fi, _, _, _, _, hp, _, hlen, _⟩ :=
    reconstruction_outcome_classification pairHash stPartialW "f" rPartialW h
  exact ⟨h, hp, hlen⟩

/-- C9: the whole-file digest check after full reassembly is unreachable
(with the digest modelled as an injective function, the idealization of a
collision-free hash).  For any manifest produced by an upload, and any
later state with the same catalog — the chunk store and node statuses may
have been tampered with arbitrarily — whenever every chunk read back
hash-verifies against its recorded per-chunk digest, the recomputed
whole-file digest equals the recorded `fileHash`, so `reconstruct` never
returns `FileIntegrityFailure`. -/
theorem whole_file_check_unreachable (C : Nat) (hC : 0 < C)
    (H : List Nat → Nat) (hinj : Function.Injective H) (st : Sys)
    (hs : someOnline st) (fid nm : String) (b : List Nat) (st2 : Sys)
    (hmeta : st2.metadataFile = (upload C H st fid nm b).1.metadataFile) :
    reconstruct H st2 fid ≠ Except.error RecoError.fileIntegrityFailure := by
  obtain ⟨st', fm, hup, hmeta', _, _, _, htot, hhash, hnone, hch, _, _, _⟩ :=
    upload_ok_spec C H st fid nm b hs
  have hst1 : (upload C H st fid nm b).1 = st' := by rw [hup]
  rw [hst1, hmeta'] at hmeta
  have hfi : (readMetadata st2).files fid = some fm := by
    unfold readMetadata
    rw [hmeta]
    simp
  have hwf : ∀ i ∈ List.range fm.totalChunks, (fm.chunks i).isSome := by
    intro i hi
    obtain ⟨nd, _, _, hcm, _⟩ := hch i (htot ▸ List.mem_range.mp hi)
    rw [hcm]
    rfl
  rw [reconstruct_unfold H st2 fid fm hfi hwf]
  by_cases ha : (((List.range fm.totalChunks).map
      (chunkFetch H st2 fid fm)).filter Option.isSome).length =
      fm.totalChunks
  · rw [if_pos ha]
    have hfe : ∀ i ∈ List.range fm.totalChunks,
        chunkFetch H st2 fid fm i = some (sliceAt C b i) := by
      intro i hi
      have hmem : chunkFetch H st2 fid fm i ∈
          (List.range fm.totalChunks).map (chunkFetch H st2 fid fm) :=
        List.mem_map.mpr ⟨i, hi, rfl⟩
      have hsome := all_isSome_of_filter_length _
        (by rw [ha, List.length_map, List.length_range]) _ hmem
      cases hfv : chunkFetch H st2 fid fm i with
      | none => rw [hfv] at hsome; exact absurd hsome (by simp)
      | some buf =>
        obtain ⟨ci, hci, hon, hstore, hbh⟩ :=
          chunkFetch_some H st2 fid fm i buf hfv
        obtain ⟨nd, hndm, honn, hcm, hstore1⟩ :=
          hch i (htot ▸ List.mem_range.mp hi)
        rw [hcm] at hci
        obtain rfl := Option.some.inj hci
        have hbuf : buf = sliceAt C b i := hinj hbh
        rw [hbuf]
    rw [if_pos (by rw [flatten_fetch_eq H st2 fid fm C hC b htot hfe, hhash])]
    simp
  · rw [if_neg ha]
    simp

/-- Witness for C9: after uploading three bytes into the fresh system
with the injective `pairHash` digest, reconstruction (here on the
untampered state itself) does not hit the whole-file-mismatch branch. -/
theorem whole_file_check_unreachable_witness :
    (0 < 2 ∧ Function.Injective pairHash ∧ someOnline initState) ∧
    reconstruct pairHash (upload 2 pairHash initState "f" "a" [1, 2, 3]).1
        "f" ≠ Except.error RecoError.fileIntegrityFailure :=
  ⟨⟨by decide, pairHash_injective, by unfold someOnline; decide⟩,
   whole_file_check_unreachable 2 (by decide) pairHash pairHash_injective
     initState (by unfold someOnline; decide) "f" "a" [1, 2, 3]
     (upload 2 pairHash initState "f" "a" [1, 2, 3]).1 rfl⟩

/-- C8: liveness filtering.  Upload `b` with all nodes online, then set
node `n` offline: (a) no chunk of any further placement is assigned to
`n`; (b) the file's manifest stays recorded unchanged, and reconstruction
reports every chunk recorded on `n` as missing with reason `NodeOffline`;
(c) after setting `n` online again, reconstruction of the same file
succeeds with the original bytes, without any re-placement. -/
theorem liveness_filtering (C : Nat) (hC : 0 < C) (H : List Nat → Nat)
    (st : Sys) (hall : allOnline st) (fid nm : String) (b : List Nat)
    (n : String) (hn : n ∈ NODES) :
    ∃ st1 fm, upload C H st fid nm b =
        (st1, Except.ok ⟨fid, nm, ceilDiv b.length C⟩) ∧
      (readMetadata st1).files fid = some fm ∧
      (∀ (fid2 nm2 : String) (b2 : List Nat) (st3 : Sys) (u : UploadOk)
        (fm2 : FileMeta) (j : Nat) (cm : ChunkMeta),
        upload C H (toggleNode st1 n (some Status.offline)).1 fid2 nm2 b2 =
          (st3, Except.ok u) →
        (readMetadata st3).files fid2 = some fm2 →
        fm2.chunks j = some cm → cm.node ≠ n) ∧
      (readMetadata (toggleNode st1 n (some Status.offline)).1).files fid =
        some fm ∧
      (∃ r, reconstruct H (toggleNode st1 n (some Status.offline)).1 fid =
          Except.ok r ∧
        ∀ j cm, fm.chunks j = some cm → cm.node = n →
          (⟨j, n, MissReason.nodeOffline⟩ : Missing) ∈ r.missingChunks) ∧
      reconstruct H (toggleNode (toggleNode st1 n (some Status.offline)).1 n
          (some Status.online)).1 fid =
        Except.ok ⟨"success", ceilDiv b.length C, ceilDiv b.length C, [],
          some b⟩ := by
  have hs : someOnline st := ⟨"node1", by decide, hall "node1" (by decide)⟩
  obtain ⟨st1, fm, hup, hmeta1, _, _, _, htot, hhash, hnone, hch, hreg, _, _⟩ :=
    upload_ok_spec C H st fid nm b hs
  have hfiles1 : (readMetadata st1).files fid = some fm := by
    unfold readMetadata
    rw [hmeta1]
    simp
  set st2 := (toggleNode st1 n (some Status.offline)).1 with hst2def
  have hst2get : ∀ m, getNodeStatus st2 m =
      if m = n then
        { getNodeStatus st1 n with
          status := Status.offline, lastSeen := some st1.clock }
      else getNodeStatus st1 m := by
    intro m
    rw [hst2def, toggleNode_some_state st1 n Status.offline hn,
      getNodeStatus_update]
  have hst2off : (getNodeStatus st2 n).status = Status.offline := by
    rw [hst2get n, if_pos rfl]
  have hst2other : ∀ m, m ≠ n →
      getNodeStatus st2 m = getNodeStatus st1 m := by
    intro m hm
    rw [hst2get m, if_neg hm]
  have hst2store : st2.store = st1.store := toggleNode_store _ _ _
  have hst2meta : st2.metadataFile = st1.metadataFile :=
    toggleNode_metadataFile _ _ _
  have hfi2 : (readMetadata st2).files fid = some fm := by
    rw [readMetadata_congr st2 st1 hst2meta]
    exact hfiles1
  have hwf : ∀ i ∈ List.range fm.totalChunks, (fm.chunks i).isSome := by
    intro i hi
    obtain ⟨nd, _, _, hcm, _⟩ := hch i (htot ▸ List.mem_range.mp hi)
    rw [hcm]
    rfl
  have hjlt : ∀ j (cm : ChunkMeta), fm.chunks j = some cm →
      j < fm.totalChunks := by
    intro j cm hcmj
    by_contra hj'
    have hge : ceilDiv b.length C ≤ j := by
      rw [← htot]
      omega
    rw [hnone j hge] at hcmj
    exact absurd hcmj (by simp)
  refine ⟨st1, fm, hup, hfiles1, ?_, hfi2, ?_, ?_⟩
  · -- (a) no further placement assigns a chunk to the offline node n
    intro fid2 nm2 b2 st3 u fm2 j cm hup2 hfm2 hcmj
    unfold upload at hup2
    cases hpl : placeLoop H fid2 st2 0 (fun _ => none) (chunkSlices C b2) with
    | mk stL r =>
      rw [hpl] at hup2
      cases r with
      | error e => simp at hup2
      | ok cmap =>
        have h1 : writeMetadata stL ⟨fun g => if g = fid2 then
            some ⟨fid2, nm2, b2.length, ceilDiv b2.length C, st2.clock, H b2,
              cmap⟩ else (readMetadata st2).files g⟩ = st3 :=
          congrArg Prod.fst hup2
        have h2 : some (⟨fid2, nm2, b2.length, ceilDiv b2.length C, st2.clock,
            H b2, cmap⟩ : FileMeta) = some fm2 := by
          rw [← h1] at hfm2
          simpa [readMetadata, writeMetadata] using hfm2
        obtain rfl := Option.some.inj h2
        have hassigned := placeLoop_assigned H fid2 (chunkSlices C b2) st2 0
          (fun _ => none) stL cmap hpl j cm hcmj
        rcases hassigned with hacc | ⟨hon2, _⟩
        · exact absurd hacc (by simp)
        · intro hcontra
          rw [hcontra] at hon2
          exact absurd (hst2off.symm.trans hon2) (by decide)
  · -- (b) chunks recorded on n are reported missing with NodeOffline
    by_cases ha : (((List.range fm.totalChunks).map
        (chunkFetch H st2 fid fm)).filter Option.isSome).length =
        fm.totalChunks
    · -- every chunk still readable: no chunk lives on n, outcome success
      have hfe : ∀ i ∈ List.range fm.totalChunks,
          chunkFetch H st2 fid fm i = some (sliceAt C b i) := by
        intro i hi
        have hmem : chunkFetch H st2 fid fm i ∈
            (List.range fm.totalChunks).map (chunkFetch H st2 fid fm) :=
          List.mem_map.mpr ⟨i, hi, rfl⟩
        have hsome := all_isSome_of_filter_length _
          (by rw [ha, List.length_map, List.length_range]) _ hmem
        cases hfv : chunkFetch H st2 fid fm i with
        | none => rw [hfv] at hsome; exact absurd hsome (by simp)
        | some buf =>
          obtain ⟨ci, hci, hon, hstore, hbh⟩ :=
            chunkFetch_some H st2 fid fm i buf hfv
          obtain ⟨nd, hndm, honn, hcm, hstore1⟩ :=
            hch i (htot ▸ List.mem_range.mp hi)
          rw [hcm] at hci
          obtain rfl := Option.some.inj hci
          have hbuf : some buf = some (sliceAt C b i) := by
            rw [← hstore, hst2store, hstore1]
          rw [Option.some.inj hbuf]
      have hsucc := reconstruct_success H st2 fid fm b C hC hfi2 htot hhash ?_
      · refine ⟨_, hsucc, ?_⟩
        intro j cm hcmj hnode
        exfalso
        have hj := hjlt j cm hcmj
        obtain ⟨ci, hci, hon, _, _⟩ := chunkFetch_some H st2 fid fm j _
          (hfe j (List.mem_range.mpr hj))
        rw [hcmj] at hci
        obtain rfl := Option.some.inj hci
        rw [hnode] at hon
        exact absurd (hst2off.symm.trans hon) (by decide)
      · intro i hi
        obtain ⟨ci, hci, hon, hstore, hbh⟩ := chunkFetch_some H st2 fid fm i _
          (hfe i (List.mem_range.mpr hi))
        exact ⟨ci, hci, hon, hstore, hbh.symm⟩
    · -- some chunk unreadable: partial/failed outcome carries the entries
      refine ⟨⟨if 0 < (((List.range fm.totalChunks).map
          (chunkFetch H st2 fid fm)).filter Option.isSome).length then
          "partial" else "failed",
        (((List.range fm.totalChunks).map (chunkFetch H st2 fid fm)).filter
          Option.isSome).length, fm.totalChunks,
        (List.range fm.totalChunks).filterMap (chunkMiss H st2 fid fm),
        none⟩, ?_, ?_⟩
      · rw [reconstruct_unfold H st2 fid fm hfi2 hwf, if_neg ha]
      · intro j cm hcmj hnode
        have hj := hjlt j cm hcmj
        have hmiss : chunkMiss H st2 fid fm j =
            some ⟨j, n, MissReason.nodeOffline⟩ := by
          simp [chunkMiss, hcmj, hnode, hst2off]
        exact List.mem_filterMap.mpr ⟨j, List.mem_range.mpr hj, hmiss⟩
  · -- (c) node n back online: reconstruction succeeds with the bytes
    set st3 := (toggleNode st2 n (some Status.online)).1 with hst3def
    have hst3get : ∀ m, getNodeStatus st3 m =
        if m = n then
          { getNodeStatus st2 n with
            status := Status.online, lastSeen := some st2.clock }
        else getNodeStatus st2 m := by
      intro m
      rw [hst3def, toggleNode_some_state st2 n Status.online hn,
        getNodeStatus_update]
    have hst3store : st3.store = st1.store := by
      rw [hst3def, toggleNode_store, hst2store]
    have hst3meta : st3.metadataFile = st1.metadataFile := by
      rw [hst3def, toggleNode_metadataFile, hst2meta]
    have hfi3 : (readMetadata st3).files fid = some fm := by
      rw [readMetadata_congr st3 st1 hst3meta]
      exact hfiles1
    have hsucc := reconstruct_success H st3 fid fm b C hC hfi3 htot hhash ?_
    · rw [htot] at hsucc
      exact hsucc
    · intro i hi
      obtain ⟨nd, hndm, honn, hcm, hstore1⟩ :=
        hch i (htot ▸ hi)
      refine ⟨⟨i, nd, H (sliceAt C b i), (sliceAt C b i).length⟩, hcm, ?_,
        ?_, rfl⟩
      · by_cases hnd : nd = n
        · rw [hst3get nd, if_pos hnd]
        · rw [hst3get nd, if_neg hnd, hst2other nd hnd, (hreg nd).1]
          exact honn
      · rw [hst3store, hstore1]

/-- Witness for C8 at `b = [1, 2, 3]`, `n = node1`: after toggling
`node1` offline and back online, reconstruction succeeds with the
original bytes. -/
theorem liveness_filtering_witness :
    (0 < 2 ∧ allOnline initState ∧ "node1" ∈ NODES) ∧
    reconstruct pairHash (toggleNode (toggleNode (upload 2 pairHash initState
        "f" "a" [1, 2, 3]).1 "node1" (some Status.offline)).1 "node1"
        (some Status.online)).1 "f" =
      Except.ok ⟨"success", 2, 2, [], some [1, 2, 3]⟩ := by
  obtain ⟨st1, fm, hup, _, _, _, _, hc⟩ :=
    liveness_filtering 2 (by decide) pairHash initState
      (by unfold allOnline; decide) "f" "a" [1, 2, 3] "node1" (by decide)
  have hst1 : (upload 2 pairHash initState "f" "a" [1, 2, 3]).1 = st1 := by
    rw [hup]
  refine ⟨⟨by decide, by unfold allOnline; decide, by decide⟩, ?_⟩
  rw [hst1]
  exact hc

end Cosmeon
